import Mathlib

set_option maxRecDepth 8000
set_option maxHeartbeats 4000000

namespace Miep

/-- Null byte: the Go scanner's `currentChar` yields byte 0 past the end of the string. -/
def nulC : Char := Char.ofNat 0

/-- Signed 16-bit wraparound: Go `int16` arithmetic reduced modulo 2^16 into [-32768, 32767]. -/
def i16 (n : Int) : Int := (n + 32768) % 65536 - 32768

/-- Mirrors `isDigit` in miep.go: `c >= '0' && c <= '9'`. -/
def isDigitC (c : Char) : Bool := decide (48 ≤ c.toNat ∧ c.toNat ≤ 57)

/-- Mirrors `isAlpha` in miep.go. -/
def isAlphaC (c : Char) : Bool :=
  decide ((97 ≤ c.toNat ∧ c.toNat ≤ 122) ∨ (65 ≤ c.toNat ∧ c.toNat ≤ 90))

/-- Mirrors `isXDigit` in miep.go. -/
def isXDigitC (c : Char) : Bool :=
  isDigitC c || decide ((97 ≤ c.toNat ∧ c.toNat ≤ 102) ∨ (65 ≤ c.toNat ∧ c.toNat ≤ 70))

/-- Mirrors `toUpper` in miep.go: `c - 'a' + 'A'` for lowercase letters. -/
def toUpperC (c : Char) : Char :=
  if 97 ≤ c.toNat ∧ c.toNat ≤ 122 then Char.ofNat (c.toNat - 32) else c

/-- Numeric value of a decimal digit character. -/
def digitVal (c : Char) : Nat := c.toNat - 48

/-- Value of a decimal digit string, as computed by Go's `strconv.Atoi` on an
all-digit string (exact for values below 2^63, which covers every program this
development evaluates). -/
def decNat (l : List Char) : Nat := l.foldl (fun a c => 10 * a + digitVal c) 0

/-- Numeric value of a hex digit character (0-9, a-f, A-F). -/
def hexVal (c : Char) : Nat :=
  if 97 ≤ c.toNat then c.toNat - 87 else if 65 ≤ c.toNat then c.toNat - 55 else c.toNat - 48

/-- Value of a hex digit string, as computed by `strconv.ParseInt(s, 16, 32)`
(exact below 2^31, which covers at-most-4-digit literals). -/
def hexNat (l : List Char) : Nat := l.foldl (fun a c => 16 * a + hexVal c) 0

/-- Length of the longest prefix satisfying `p`; the distance moved by the Go
scanning loops that advance while a character class holds. -/
def spanLen (p : Char → Bool) (l : List Char) : Nat := (l.takeWhile p).length

/-- Decimal digits of a natural number (fuel-based helper). -/
def natDecAux : Nat → Nat → List Char
  | 0, _ => []
  | _, 0 => []
  | f + 1, n + 1 => natDecAux f ((n + 1) / 10) ++ [Char.ofNat (48 + (n + 1) % 10)]

/-- Decimal digits of a natural number, matching Go's `%d` for nonnegative values. -/
def natDec (n : Nat) : List Char := if n = 0 then ['0'] else natDecAux n n

/-- Go's `fmt.Print(int(v))` / `%d` rendering of a (16-bit) integer. -/
def intDec (v : Int) : List Char := if v < 0 then '-' :: natDec (-v).toNat else natDec v.toNat

/-- Hex digit character, lowercase, matching Go's `%x`. -/
def hexChar (n : Nat) : Char := if n < 10 then Char.ofNat (48 + n) else Char.ofNat (87 + n)

/-- Go's `fmt.Printf("%04x", uint16(v))`: four lowercase hex digits of the 16-bit value. -/
def hex4 (v : Int) : List Char :=
  let n := (v % 65536).toNat
  [hexChar (n / 4096 % 16), hexChar (n / 256 % 16), hexChar (n / 16 % 16), hexChar (n % 16)]

/-- Go's `fmt.Printf("%02x", uint8(v))`: two lowercase hex digits of the low byte. -/
def hex2 (v : Int) : List Char :=
  let n := (v % 256).toNat
  [hexChar (n / 16 % 16), hexChar (n % 16)]

/-- Go's `fmt.Printf(fmt.Sprintf("%%%dd", w), int(v))`: positive widths right-justify
with spaces, negative widths become a `-` flag (left-justify), width 0 degenerates to
a bare `%0d` which prints the plain number. -/
def fmtWidth (w v : Int) : List Char :=
  let d := intDec v
  if 0 < w then List.replicate (w.toNat - d.length) ' ' ++ d
  else if w < 0 then d ++ List.replicate ((-w).toNat - d.length) ' '
  else d

/-- ASCII whitespace recognized by `strings.TrimSpace` on the byte strings we model. -/
def isWS (c : Char) : Bool :=
  decide (c = ' ' ∨ c = '\n' ∨ c = '\t' ∨ c = '\r' ∨ c = Char.ofNat 11 ∨ c = Char.ofNat 12)

/-- `strings.TrimSpace` on an ASCII line. -/
def trimWS (l : List Char) : List Char :=
  ((l.dropWhile isWS).reverse.dropWhile isWS).reverse

/-- Runtime stack cells. The Go stack is `[]interface{}`; a cell is either a saved
program string (`m.s`), a Go `int` (saved position or variable index), or a Go
`int16` (a counted-loop bound). A type assertion on the wrong alternative panics. -/
inductive Cell where
  | str : List Char → Cell
  | int : Int → Cell
  | i16 : Int → Cell
deriving DecidableEq, Repr

/-- Result of running a piece of the interpreter: a value, a Go runtime panic
(out-of-range array index or failed type assertion), fuel exhaustion of the
model's step counter, or a detected genuine infinite loop of the source. -/
inductive Res (α : Type) where
  | ok : α → Res α
  | panic : Res α
  | nofuel : Res α
  | hang : Res α
deriving DecidableEq, Repr

/-- Sequencing for `Res`. -/
def Res.bind {α β : Type} : Res α → (α → Res β) → Res β
  | .ok a, f => f a
  | .panic, _ => .panic
  | .nofuel, _ => .nofuel
  | .hang, _ => .hang

/-- The `MiepInterpreter` struct. `memory` is the 65536-byte array represented as an
association list of written cells over an all-zero initial array; `stdin` and `randq`
are oracle streams for the blocking reads and `rand.Intn`; `fs` is the file-system
oracle for `*LD`; `out` accumulates everything printed to standard output. -/
structure Machine where
  vars : List Int
  memory : List (Nat × Nat)
  pbuff : List Char
  psize : Nat
  s : List Char
  pos : Nat
  ln : Int
  stack : List Cell
  tron : Bool
  mod : Int
  forMode : Int
  stdin : List Char
  randq : List Nat
  fs : List (List Char × List Char)
  out : List Char
deriving DecidableEq, Repr

/-- The unread rest of the current parse string. -/
def suffix (m : Machine) : List Char := m.s.drop m.pos

/-- Mirrors `currentChar`: the byte at the cursor, or 0 past the end. -/
def curc (m : Machine) : Char := (suffix m).headD nulC

/-- Mirrors `peek`. -/
def peekc (m : Machine) (k : Nat) : Char := (m.s.drop (m.pos + k)).headD nulC

/-- Mirrors `advance`. -/
def madv (m : Machine) (k : Nat) : Machine := { m with pos := m.pos + k }

/-- Mirrors `skipSpaces`. -/
def skipSpaces (m : Machine) : Machine := madv m (spanLen (fun c => c = ' ') (suffix m))

/-- The text printed by `syntaxError`: `fmt.Printf("\nSyntaxerror in %d", m.ln)`. -/
def serrMsg (ln : Int) : List Char := '\n' :: ("Syntaxerror in ".toList ++ intDec ln)

/-- Mirrors `syntaxError`: prints the message and continues. -/
def syntaxError (m : Machine) : Machine := { m with out := m.out ++ serrMsg m.ln }

/-- Mirrors `skipChar`: consume the expected character, else report a syntax error
(without advancing) and continue. -/
def skipChar (c : Char) (m : Machine) : Machine :=
  if curc m = c then madv m 1 else syntaxError m

/-- Mirrors `getOperator2`; the returned byte 0 means "no binary operator here".
`<>`, `<=`, `>=` are encoded as `N`, `A`, `B` exactly as in the source. -/
def getOperator2 (m : Machine) : Char × Machine :=
  let c := curc m
  if c = '=' ∨ c = '+' ∨ c = '-' ∨ c = '*' ∨ c = '/' then (c, madv m 1)
  else if c = '<' then
    let m1 := madv m 1
    if curc m1 = '>' then ('N', madv m1 1)
    else if curc m1 = '=' then ('A', madv m1 1)
    else ('<', m1)
  else if c = '>' then
    let m1 := madv m 1
    if curc m1 = '=' then ('B', madv m1 1)
    else ('>', m1)
  else (nulC, m)

/-- Mirrors `getOperator1`. -/
def getOperator1 (m : Machine) : Char × Machine :=
  let c := curc m
  if c = '+' ∨ c = '-' ∨ c = '\'' ∨ c = '#' ∨ c = '%' then (c, madv m 1) else (nulC, m)

/-- Mirrors `getVariable`: on a letter, remember the first letter and skip the whole
maximal run of letters; otherwise yield byte 0 and do not move. -/
def getVariable (m : Machine) : Char × Machine :=
  if isAlphaC (curc m) then (curc m, madv m (spanLen isAlphaC (suffix m)))
  else (nulC, m)

/-- The value `strconv.ParseInt` (and `Atoi`, which is `ParseInt(s, 10, 0)` on the
64-bit platform int) yields for an unsigned digit string of the given magnitude:
every caller discards the error, so on overflow the program uses the value clamped
at the largest representable one. -/
def clampPos (bits : Nat) (n : Nat) : Int :=
  if n < 2 ^ (bits - 1) then (n : Int) else 2 ^ (bits - 1) - 1

/-- The value `strconv.ParseInt` yields for a `-`-signed string of the given
magnitude: clamped at the smallest representable value on overflow. -/
def clampNeg (bits : Nat) (n : Nat) : Int :=
  if n ≤ 2 ^ (bits - 1) then -(n : Int) else -((2 : Int) ^ (bits - 1))

def getHexValue (m : Machine) : Int × Machine :=
  if isXDigitC (curc m) then
    let ds := (suffix m).takeWhile isXDigitC
    (i16 (clampPos 32 (hexNat ds)), madv m ds.length)
  else (-1, m)

/-- Mirrors `getDecimalValue`. -/
def getDecimalValue (m : Machine) : Int × Machine :=
  if isDigitC (curc m) then
    let ds := (suffix m).takeWhile isDigitC
    (i16 (clampPos 64 (decNat ds)), madv m ds.length)
  else (-1, m)

/-- Mirrors `getString`: consume a double-quoted literal; the closing quote is
consumed by `skipChar`, which reports a syntax error if the literal is unterminated. -/
def getString (m : Machine) : List Char × Machine :=
  if curc m = '"' then
    let m1 := skipChar '"' m
    let content := (suffix m1).takeWhile (fun c => ¬(c = '"' ∨ c = nulC))
    (content, skipChar '"' (madv m1 content.length))
  else ([], m)

/-- Mirrors `getConstant`. A string literal packs its first two bytes little-endian
into an `int16` (`v = s[0] + s[1]*256` with 16-bit wraparound). -/
def getConstant (m : Machine) : Int × Machine :=
  if curc m = '"' then
    let sm := getString m
    let c0 := sm.1.headD nulC
    let c1 := (sm.1.drop 1).headD nulC
    (i16 (c0.toNat + 256 * c1.toNat), sm.2)
  else if curc m = '$' then
    getHexValue (skipChar '$' m)
  else if isDigitC (curc m) then getDecimalValue m
  else (0, m)

/-- Read one byte from standard input (`bufio.Reader.ReadByte`); 0 at end of stream. -/
def readByte (m : Machine) : Int × Machine :=
  ((m.stdin.headD nulC).toNat, { m with stdin := m.stdin.drop 1 })

/-- Read one line (`ReadString('\n')`): everything up to and including the newline,
or the whole rest of the stream at end of input. -/
def readLine (stdin : List Char) : List Char × List Char :=
  let i := spanLen (fun c => c ≠ '\n') stdin
  match stdin.drop i with
  | [] => (stdin.take i, [])
  | _ :: rest => (stdin.take i ++ ['\n'], rest)

/-- Parse a trimmed input line as `term` does: hex when it starts with `$`, else
decimal via `strconv.Atoi` (optional sign, all digits, else 0). -/
def parseInputLine (l : List Char) : Int :=
  let t := trimWS l
  if t.headD nulC = '$' then
    match t.drop 1 with
    | '+' :: ds => if ds ≠ [] ∧ ds.all isXDigitC then i16 (clampPos 32 (hexNat ds)) else 0
    | '-' :: ds => if ds ≠ [] ∧ ds.all isXDigitC then i16 (clampNeg 32 (hexNat ds)) else 0
    | ds => if ds ≠ [] ∧ ds.all isXDigitC then i16 (clampPos 32 (hexNat ds)) else 0
  else
    match t with
    | '+' :: ds => if ds ≠ [] ∧ ds.all isDigitC then i16 (clampPos 64 (decNat ds)) else 0
    | '-' :: ds => if ds ≠ [] ∧ ds.all isDigitC then i16 (clampNeg 64 (decNat ds)) else 0
    | ds => if ds ≠ [] ∧ ds.all isDigitC then i16 (clampPos 64 (decNat ds)) else 0

/-- Read a byte of the 64KB memory (zero-initialized). -/
def memGet (m : Machine) (a : Nat) : Nat := (m.memory.lookup a).getD 0

/-- Write a byte of the 64KB memory. -/
def memSet (m : Machine) (a : Nat) (b : Nat) : Machine := { m with memory := (a, b) :: m.memory }

/-- Read variable slot `i` (0-25). -/
def varGet (m : Machine) (i : Nat) : Int := m.vars.getD i 0

/-- Write variable slot `i`. -/
def varSet (m : Machine) (i : Nat) (v : Int) : Machine :=
  { m with vars := m.vars.set i v }

/-- The message printed on division by zero (`fmt.Println`). -/
def dbzMsg : List Char := "Division by zero\n".toList

/-- The binary-operator switch inside `expression`, acting on the left value `v`,
the right value `v2` and the interpreter state. Division by zero prints a message
and yields -1 without touching the remainder register; a nonzero division stores
the truncated (Go-style) remainder in `mod` and yields the truncated quotient. -/
def applyOp (c : Char) (v v2 : Int) (m : Machine) : Int × Machine :=
  if c = '+' then (i16 (v + v2), m)
  else if c = '-' then (i16 (v - v2), m)
  else if c = '*' then (i16 (v * v2), m)
  else if c = '/' then
    if v2 = 0 then (-1, { m with out := m.out ++ dbzMsg })
    else (i16 (Int.tdiv v v2), { m with mod := i16 (Int.tmod v v2) })
  else if c = '=' then (if v = v2 then 1 else 0, m)
  else if c = '<' then (if v < v2 then 1 else 0, m)
  else if c = 'N' then (if v ≠ v2 then 1 else 0, m)
  else if c = 'A' then (if v ≤ v2 then 1 else 0, m)
  else if c = '>' then (if v2 < v then 1 else 0, m)
  else if c = 'B' then (if v2 ≤ v then 1 else 0, m)
  else (v, m)

/-- The body of `term`, parameterized by the one-fuel-less `expression` and `term`
used for its recursive calls. Mirrors `term` in miep.go. Array reads index the Go
array `memory [65536]byte` with an `int16` address; a negative index is a Go
runtime panic (`index out of range`), modelled as `Res.panic`. -/
def termBody (exprF termF : Machine → Res (Int × Machine)) (m : Machine) :
    Res (Int × Machine) :=
  let m := skipSpaces m
  if curc m = '(' then
    (exprF (skipChar '(' m)).bind fun vm =>
      .ok (vm.1, skipChar ')' (skipSpaces vm.2))
  else
    let cv := getVariable m
    if cv.1 ≠ nulC then
      let vi := (toUpperC cv.1).toNat - 65
      let m1 := cv.2
      if curc m1 = ':' then
        (exprF (skipChar ':' m1)).bind fun vm =>
          let m2 := skipChar ')' vm.2
          let addr := i16 (varGet m2 vi + vm.1)
          if addr < 0 then .panic
          else .ok ((memGet m2 addr.toNat : Int), m2)
      else if curc m1 = '(' then
        (exprF (skipChar '(' m1)).bind fun vm =>
          let m2 := skipChar ')' vm.2
          let addr := i16 (varGet m2 vi + vm.1 * 2)
          let addr2 := i16 (addr + 1)
          if addr < 0 ∨ addr2 < 0 then .panic
          else .ok (i16 ((memGet m2 addr.toNat : Int) + 256 * (memGet m2 addr2.toNat : Int)), m2)
      else .ok (varGet m1 vi, m1)
    else if curc m = '$' ∧ ¬ isXDigitC (peekc m 1) then
      let rb := readByte (madv m 1)
      .ok rb
    else if curc m = '?' then
      let m1 := madv m 1
      let lr := readLine m1.stdin
      .ok (parseInputLine lr.1, { m1 with stdin := lr.2 })
    else
      let saved := m.pos
      let vm := getConstant m
      if vm.1 ≠ 0 ∨ vm.2.pos ≠ saved then .ok vm
      else
        let cm := getOperator1 vm.2
        if cm.1 ≠ nulC then
          (termF cm.2).bind fun v2m =>
            let v := v2m.1
            let m3 := v2m.2
            if cm.1 = '-' then .ok (i16 (-v), m3)
            else if cm.1 = '+' then .ok (if v < 0 then i16 (-v) else v, m3)
            else if cm.1 = '#' then .ok (if v ≠ 0 then 0 else 1, m3)
            else if cm.1 = '\'' then
              if 0 < v then
                .ok (((m3.randq.headD 0) % v.toNat : Nat), { m3 with randq := m3.randq.drop 1 })
              else .ok (0, m3)
            else .ok (m3.mod, m3)
        else .ok (0, cm.2)

/-- The body of `expression`, parameterized by the one-fuel-less `term` and
expression loop: one term, then the flat left-to-right operator loop. -/
def exprBody (termF : Machine → Res (Int × Machine))
    (loopF : Int → Machine → Res (Int × Machine)) (m : Machine) : Res (Int × Machine) :=
  (termF (skipSpaces m)).bind fun vm => loopF vm.1 vm.2

/-- The body of the `for` loop inside `expression`. -/
def exprLoopBody (termF : Machine → Res (Int × Machine))
    (loopF : Int → Machine → Res (Int × Machine)) (v : Int) (m : Machine) :
    Res (Int × Machine) :=
  let cm := getOperator2 m
  if cm.1 = nulC then .ok (v, cm.2)
  else
    (termF cm.2).bind fun vm =>
      let r := applyOp cm.1 v vm.1 vm.2
      loopF r.1 r.2

/-- Fuel-indexed tower of (`term`, `expression`, expression loop), built with
`Nat.rec` so that concrete runs reduce inside the kernel. Fuel only bounds the
model's recursion depth; exhaustion is `Res.nofuel`. -/
def evalRec : Nat →
    ((Machine → Res (Int × Machine)) × (Machine → Res (Int × Machine)) ×
      (Int → Machine → Res (Int × Machine))) :=
  Nat.rec ⟨fun _ => .nofuel, fun _ => .nofuel, fun _ _ => .nofuel⟩
    (fun _ p => ⟨termBody p.2.1 p.1, exprBody p.1 p.2.2, exprLoopBody p.1 p.2.2⟩)

/-- Mirrors `term`. -/
def term (f : Nat) : Machine → Res (Int × Machine) := (evalRec f).1

/-- Mirrors `expression`. -/
def expression (f : Nat) : Machine → Res (Int × Machine) := (evalRec f).2.1

/-- The `for` loop inside `expression`. -/
def exprLoop (f : Nat) : Int → Machine → Res (Int × Machine) := (evalRec f).2.2



/-- Distance moved by `skipToNewline`: past the first newline, or up to the first
NUL byte / end of text. -/
def nlSpan (l : List Char) : Nat :=
  let i := spanLen (fun c => ¬(c = '\n' ∨ c = nulC)) l
  if (l.drop i).headD nulC = '\n' then i + 1 else i

/-- Mirrors `skipToNewline`. -/
def skipToNewline (m : Machine) : Machine := madv m (nlSpan (suffix m))

/-- The scanning loop of `searchLine` on the remaining text `r`, with a structural
fuel bound: each iteration consumes at least one character, so fuel `r.length + 1`
(as supplied by `searchScan`) always suffices and the fuel-0 arm is unreachable.
The loop parses each line's leading decimal number and returns the first one
`>= t` together with the offset of the start of that line, or (-1, consumed offset)
when a line does not start with a digit, when a parsed number truncates to -1, or
when the text is exhausted. -/
def searchScanBody (nextF : List Char → Int → Int × Nat) (r : List Char) (t : Int) :
    Int × Nat :=
  if r = [] then (-1, 0)
  else
    let ds := r.takeWhile isDigitC
    if ds.length = 0 then (-1, 0)
    else
      let n := i16 (clampPos 64 (decNat ds))
      if n = -1 then (-1, ds.length)
      else if t <= n then (n, 0)
      else
        let rest := r.drop ds.length
        let k := nlSpan rest
        let rec2 := nextF (rest.drop k) t
        (rec2.1, ds.length + k + rec2.2)

/-- The fuel-indexed scanning loop (see `searchScanBody`), built with `Nat.rec`. -/
def searchScanF : Nat → List Char → Int → Int × Nat :=
  Nat.rec (fun _ _ => (-1, 0)) (fun _ p => searchScanBody p)

/-- The scanning loop of `searchLine`, with its always-sufficient fuel. -/
def searchScan (r : List Char) (t : Int) : Int × Nat := searchScanF (r.length + 1) r t

/-- Mirrors `searchLine`. It rebinds the cursor to the start of the program buffer,
then skips one leading comment line when the very first byte is `#`. The Go
comment-skip loop is `for m.currentChar() != '\n' { m.advance(1) }`: when the buffer
contains no newline, `currentChar` returns 0 forever and the loop never exits, which
the model reports as `Res.hang`. -/
def searchLine (m : Machine) (t : Int) : Res (Int × Machine) :=
  let sb := m.pbuff
  if sb.headD nulC = '#' then
    match sb.findIdx? (fun c => c = '\n') with
    | none => .hang
    | some i =>
      let r := searchScan (sb.drop (i + 1)) t
      .ok (r.1, { m with s := sb, pos := (i + 1) + r.2 })
  else
    let r := searchScan sb t
    .ok (r.1, { m with s := sb, pos := r.2 })

/-- Mirrors `gotoLine`. -/
def gotoLine (m : Machine) (v : Int) : Res Machine :=
  if v = -1 then .ok { m with ln := -1 }
  else (searchLine m v).bind fun rm => .ok { rm.2 with ln := rm.1 }

/-- Mirrors `gosub`: push the current cursor (string then position) and jump. -/
def gosub (m : Machine) (v : Int) : Res Machine :=
  gotoLine { m with stack := .int (m.pos : Int) :: .str m.s :: m.stack } v

/-- Mirrors `returnFromSub`: with fewer than 2 stack cells nothing happens; with at
least 2, the top cell is asserted to be a Go `int` and the next a string - a failed
assertion is a runtime panic. -/
def returnFromSub (m : Machine) : Res Machine :=
  match m.stack with
  | .int p :: .str sv :: rest => .ok { m with pos := p.toNat, s := sv, stack := rest }
  | _ :: _ :: _ => .panic
  | _ => .ok m

/-- Mirrors `doLoop`: unconditionally push the current cursor. -/
def doLoop (m : Machine) : Machine :=
  { m with stack := .int (m.pos : Int) :: .str m.s :: m.stack }

/-- Mirrors `untilLoop`: with fewer than 2 cells nothing happens (in particular the
condition expression is NOT consumed); otherwise pop the frame, evaluate the
condition, and restore/re-push the frame when it is 0. -/
def untilLoop (f : Nat) (m : Machine) : Res Machine :=
  match m.stack with
  | .int p :: .str sv :: rest =>
    (expression f { m with stack := rest }).bind fun vm =>
      if vm.1 = 0 then
        .ok { vm.2 with s := sv, pos := p.toNat, stack := .int p :: .str sv :: vm.2.stack }
      else .ok vm.2
  | _ :: _ :: _ => .panic
  | _ => .ok m

/-- Mirrors `nextLoop`. The guard in the source is `m.sp >= 3` although a counted
frame has 4 cells; with exactly 3 cells the read of `m.stack[m.sp-1]` indexes -1 and
panics. With fewer than 3 cells nothing happens (the loop-step expression is NOT
consumed). Otherwise the 4-cell frame (bound, position, string, variable index) is
popped, the step expression evaluated and stored, and the frame re-pushed when the
new value is still within the bound. -/
def nextLoop (f : Nat) (m : Machine) : Res Machine :=
  match m.stack with
  | .i16 tv :: .int p :: .str sv :: rest =>
    match rest with
    | .int vi :: rest2 =>
      (expression f { m with stack := rest2 }).bind fun vm =>
        let m3 := varSet vm.2 vi.toNat vm.1
        if vm.1 ≤ tv then
          .ok { m3 with
                  s := sv
                  pos := p.toNat
                  stack := (Cell.i16 tv :: Cell.int p ::
                    Cell.str sv :: Cell.int vi :: m3.stack) }
        else .ok m3
    | _ :: _ => .panic
    | [] => .panic
  | _ :: _ :: _ :: _ => .panic
  | _ => .ok m

/-- Mirrors `ifStatement`: when the condition is 0, skip to past the newline and
step one byte back so the dispatcher sees the newline itself. (The `m.pos--` cannot
underflow at its call site: the dispatcher has consumed at least `;=` before.) -/
def ifStatement (v : Int) (m : Machine) : Machine :=
  if v = 0 then
    let m1 := skipToNewline m
    { m1 with pos := m1.pos - 1 }
  else m

/-- Mirrors `loadSource` at the `*LD` call site: replace the program buffer on
success, silently ignore a missing file. -/
def loadSource (m : Machine) (name : List Char) : Machine :=
  match m.fs.lookup name with
  | some content => { m with pbuff := content, psize := content.length }
  | none => m

/-- Mirrors `loadSourceCommand`. Its filename scan is `for m.currentChar() != '\n'`
with no end-of-text check, so a final line lacking a newline loops forever
(`Res.hang`). -/
def loadSourceCommand (m : Machine) : Res Machine :=
  let m1 := skipSpaces m
  let l := suffix m1
  if '\n' ∈ l then
    let i := spanLen (fun c => c ≠ '\n') l
    .ok (loadSource (madv m1 i) (l.take i))
  else .hang

/-- The message printed for the disabled `*SH` command. -/
def shellMsg : List Char := "Shell command not supported\n".toList

/-- Outcome of a meta-command: continue in the statement loop, or `os.Exit(0)`. -/
inductive OptOut where
  | cont : Machine → OptOut
  | exit : Machine → OptOut
deriving DecidableEq, Repr

/-- Mirrors `optionalCommand`: two case-folded letters select LD/QU/TN/TF/SH/FM;
anything else prints a syntax error and CONTINUES (the function just returns to the
dispatcher, which carries on with the next statement character). -/
def optionalCommand (f : Nat) (m : Machine) : Res OptOut :=
  let c1 := toUpperC (curc m)
  let m1 := madv m 1
  let c2 := toUpperC (curc m1)
  let m2 := madv m1 1
  if c1 = 'L' ∧ c2 = 'D' then (loadSourceCommand m2).bind fun m3 => .ok (.cont m3)
  else if c1 = 'Q' ∧ c2 = 'U' then .ok (.exit m2)
  else if c1 = 'T' ∧ c2 = 'N' then .ok (.cont { m2 with tron := true })
  else if c1 = 'T' ∧ c2 = 'F' then .ok (.cont { m2 with tron := false })
  else if c1 = 'S' ∧ c2 = 'H' then .ok (.cont { m2 with out := m2.out ++ shellMsg })
  else if c1 = 'F' ∧ c2 = 'M' then
    (expression f m2).bind fun vm => .ok (.cont { vm.2 with forMode := vm.1 })
  else .ok (.cont (syntaxError m2))

/-- Result of `run`: a plain return from the function, or `os.Exit(0)` via `*QU`. -/
inductive RunOut where
  | ret : Machine → RunOut
  | exit : Machine → RunOut
deriving DecidableEq, Repr

/-- Control signal of the inner statement loop: `break` to the outer line loop with
a machine, or leave `run` altogether. -/
inductive Flow where
  | next : Machine → Flow
  | halt : RunOut → Flow
deriving DecidableEq, Repr

/-- The body of the outer loop of `run`, parameterized by the one-fuel-less outer
and inner loops. Stops at end of text or at the terminal line sentinel -1; otherwise
(unless the line number is the initial sentinel 0) parses the leading decimal line
number, optionally echoes it when tracing, and treats a line whose number is not
followed by a space as a comment. Then dispatches statements. -/
def runOuterBody (outerF : Machine → Res RunOut) (innerF : Machine → Res Flow)
    (m : Machine) : Res RunOut :=
  if curc m = nulC then .ok (.ret m)
  else if m.ln = -1 then .ok (.ret m)
  else if m.ln ≠ 0 then
    let vm := getDecimalValue m
    let m1 := vm.2
    let m2 := if m1.tron then { m1 with out := m1.out ++ ('[' :: (intDec vm.1 ++ [']'])) } else m1
    let m3 := { m2 with ln := vm.1 }
    if curc m3 ≠ ' ' then outerF (skipToNewline m3)
    else
      match innerF m3 with
      | .ok (.next m4) => outerF m4
      | .ok (.halt r) => .ok r
      | .panic => .panic
      | .nofuel => .nofuel
      | .hang => .hang
  else
    match innerF m with
    | .ok (.next m4) => outerF m4
    | .ok (.halt r) => .ok r
    | .panic => .panic
    | .nofuel => .nofuel
    | .hang => .hang

/-- The body of the inner statement loop of `run`, dispatching on the next
character; `g` is the fuel handed to the expression evaluator and the loop/meta
helpers, and `innerF` the one-fuel-less inner loop. Array assignments index the
65536-byte Go array with an `int16` address, so a negative effective address
panics, exactly as in `term`. -/
def runInnerBody (g : Nat) (innerF : Machine → Res Flow) (m : Machine) : Res Flow :=
  let c := curc m
  if c = nulC then .ok (.halt (.ret m))
  else if c = '\n' then .ok (.next (madv m 1))
  else if c = ' ' then innerF (skipSpaces m)
  else if c = '"' then
    let sm := getString m
    innerF { sm.2 with out := sm.2.out ++ sm.1 }
  else if c = '/' then
    let m1 := skipChar '/' m
    innerF { m1 with out := m1.out ++ ['\n'] }
  else if c = '.' then
    (expression g (skipChar '=' (skipChar '.' m))).bind fun vm =>
      innerF { vm.2 with out := vm.2.out ++ List.replicate vm.1.toNat ' ' }
  else if c = '*' then
    match optionalCommand g (madv m 1) with
    | .ok (.cont m1) => innerF m1
    | .ok (.exit m1) => .ok (.halt (.exit m1))
    | .panic => .panic
    | .nofuel => .nofuel
    | .hang => .hang
  else if c = '?' then
    let m1 := madv m 1
    let c2 := curc m1
    if c2 = '=' then
      (expression g (skipChar '=' m1)).bind fun vm =>
        innerF { vm.2 with out := vm.2.out ++ intDec vm.1 }
    else if c2 = '?' then
      (expression g (skipChar '=' (skipChar '?' m1))).bind fun vm =>
        innerF { vm.2 with out := vm.2.out ++ hex4 vm.1 }
    else if c2 = '$' then
      (expression g (skipChar '=' (skipChar '$' m1))).bind fun vm =>
        innerF { vm.2 with out := vm.2.out ++ hex2 vm.1 }
    else if c2 = '(' then
      (expression g (skipChar '(' m1)).bind fun wm =>
        (expression g (skipChar '=' (skipChar ')' wm.2))).bind fun vm =>
          innerF { vm.2 with out := vm.2.out ++ fmtWidth wm.1 vm.1 }
    else .ok (.halt (.ret (syntaxError m1)))
  else if c = '\'' then
    (expression g (skipChar '=' (madv m 1))).bind fun vm =>
      innerF vm.2
  else if c = '$' then
    (expression g (skipChar '=' (madv m 1))).bind fun vm =>
      innerF { vm.2 with out := vm.2.out ++ [Char.ofNat (vm.1 % 256).toNat] }
  else if c = '#' then
    (expression g (skipChar '=' (madv m 1))).bind fun vm =>
      (gotoLine vm.2 vm.1).bind fun m3 => .ok (.next m3)
  else if c = '!' then
    (expression g (skipChar '=' (madv m 1))).bind fun vm =>
      (gosub vm.2 vm.1).bind fun m3 => .ok (.next m3)
  else if c = ']' then
    (returnFromSub (madv m 1)).bind fun m1 => innerF m1
  else if c = '@' then
    let m1 := madv m 1
    if curc m1 = '=' then
      let m2 := skipChar '=' m1
      if curc m2 = '(' then (untilLoop g m2).bind fun m3 => innerF m3
      else (nextLoop g m2).bind fun m3 => innerF m3
    else innerF (doLoop m1)
  else if c = ';' then
    (expression g (skipChar '=' (madv m 1))).bind fun vm =>
      innerF (ifStatement vm.1 vm.2)
  else if isAlphaC c then
    let cv := getVariable m
    let vi := (toUpperC cv.1).toNat - 65
    let m1 := cv.2
    let assigned : Res Machine :=
      if curc m1 = ':' then
        (expression g (madv m1 1)).bind fun im =>
          (expression g (skipChar '=' (skipChar ')' im.2))).bind fun vm =>
            let addr := i16 (varGet vm.2 vi + im.1)
            if addr < 0 then .panic
            else .ok (memSet vm.2 addr.toNat (vm.1 % 256).toNat)
      else if curc m1 = '(' then
        (expression g (madv m1 1)).bind fun im =>
          (expression g (skipChar '=' (skipChar ')' im.2))).bind fun vm =>
            let addr := i16 (varGet vm.2 vi + im.1 * 2)
            let addr2 := i16 (addr + 1)
            if addr < 0 then .panic
            else
              let m5 := memSet vm.2 addr.toNat (vm.1 % 256).toNat
              if addr2 < 0 then .panic
              else .ok (memSet m5 addr2.toNat ((Int.fdiv vm.1 256) % 256).toNat)
      else
        (expression g (skipChar '=' m1)).bind fun vm => .ok (varSet vm.2 vi vm.1)
    assigned.bind fun m2 =>
      if curc m2 = ',' then
        (expression g (skipChar ',' m2)).bind fun tm =>
          let toVal := tm.1
          let m3 := tm.2
          let v := varGet m3 vi
          if toVal < v ∧ m3.forMode ≠ 0 then
            let i := spanLen (fun c => ¬(c = '@' ∨ c = nulC)) (suffix m3)
            let m4 := madv m3 i
            if curc m4 = '@' then
              (expression g (skipChar '=' (skipChar '@' m4))).bind fun em =>
                innerF em.2
            else innerF m4
          else
            innerF { m3 with stack := (Cell.i16 toVal :: Cell.int (m3.pos : Int) ::
              Cell.str m3.s :: Cell.int (vi : Int) :: m3.stack) }
      else innerF m2
  else .ok (.halt (.ret (syntaxError m)))

/-- Fuel-indexed tower of the outer and inner loops of `run`, built with `Nat.rec`
so that concrete runs reduce inside the kernel. -/
def runRec : Nat → ((Machine → Res RunOut) × (Machine → Res Flow)) :=
  Nat.rec ⟨fun _ => .nofuel, fun _ => .nofuel⟩
    (fun g p => ⟨runOuterBody p.1 p.2, runInnerBody g p.2⟩)

/-- Mirrors the outer loop of `run`. -/
def runOuter (f : Nat) : Machine → Res RunOut := (runRec f).1

/-- Mirrors the inner statement loop of `run`. -/
def runInner (f : Nat) : Machine → Res Flow := (runRec f).2


/-- A fresh interpreter with the given program text loaded, as `main` builds it. -/
def initMachine (prog : String) : Machine :=
  { vars := List.replicate 26 0, memory := [], pbuff := prog.toList,
    psize := prog.toList.length, s := [], pos := 0, ln := 0, stack := [],
    tron := false, mod := 0, forMode := 0, stdin := [], randq := [], fs := [], out := [] }

/-- Mirrors the successful path of `main`: `gotoLine(1)` then `run()`. -/
def boot (f : Nat) (prog : String) : Res RunOut :=
  (gotoLine (initMachine prog) 1).bind fun m => runOuter f m

/-- Machine carried by a finished run, if any. -/
def Res.machOf : Res RunOut → Option Machine
  | .ok (.ret m) => some m
  | .ok (.exit m) => some m
  | _ => none

/-- Output of a finished run. -/
def Res.outOf (r : Res RunOut) : Option (List Char) := r.machOf.map Machine.out

/-- Whether the run ended in `os.Exit(0)` (the `*QU` command). -/
def Res.isExit : Res RunOut → Bool
  | .ok (.exit _) => true
  | _ => false

/-- Whether the run ended by `run` returning normally. -/
def Res.isRet : Res RunOut → Bool
  | .ok (.ret _) => true
  | _ => false

/-- Value of a variable slot after a finished run. -/
def Res.varOf (r : Res RunOut) (i : Nat) : Option Int := r.machOf.map fun m => varGet m i

/-- Runtime stack after a finished run. -/
def Res.stackOf (r : Res RunOut) : Option (List Cell) := r.machOf.map Machine.stack

/-- Remainder register after a finished run. -/
def Res.modOf (r : Res RunOut) : Option Int := r.machOf.map Machine.mod

/-- Unconsumed standard input after a finished run. -/
def Res.stdinOf (r : Res RunOut) : Option (List Char) := r.machOf.map Machine.stdin

/-- Like `boot`, but with the global for-mode flag preset and standard input
supplied (the flag is otherwise settable only through the `*FM` meta-command). -/
def bootWith (f : Nat) (prog : String) (fm : Int) (input : String) : Res RunOut :=
  (gotoLine { initMachine prog with forMode := fm, stdin := input.toList } 1).bind
    fun m => runOuter f m

/-- Machine holding an isolated expression string under the cursor. -/
def exprMachine (l : List Char) : Machine := { initMachine "" with s := l }

/-- Value-only projection of an expression evaluation on an isolated string. -/
def evalV (f : Nat) (l : List Char) : Res Int :=
  (expression f (exprMachine l)).bind fun vm => .ok vm.1

/-- Value, remainder register and output of an expression evaluation. -/
def evalObs (f : Nat) (m : Machine) : Res (Int × Int × List Char) :=
  (expression f m).bind fun vm => .ok (vm.1, vm.2.mod, vm.2.out)

/-- The ten binary-operator spellings accepted by `getOperator2`. -/
inductive BOp where
  | add
  | sub
  | mul
  | div
  | eqc
  | ltc
  | nec
  | lec
  | gtc
  | gec
deriving DecidableEq, Repr

/-- Source spelling of a binary operator. -/
def opStr : BOp → List Char
  | .add => ['+']
  | .sub => ['-']
  | .mul => ['*']
  | .div => ['/']
  | .eqc => ['=']
  | .ltc => ['<']
  | .nec => ['<', '>']
  | .lec => ['<', '=']
  | .gtc => ['>']
  | .gec => ['>', '=']

/-- The internal code `getOperator2` returns for each spelling (`N`, `A`, `B` for
`<>`, `<=`, `>=`). -/
def opCode : BOp → Char
  | .add => '+'
  | .sub => '-'
  | .mul => '*'
  | .div => '/'
  | .eqc => '='
  | .ltc => '<'
  | .nec => 'N'
  | .lec => 'A'
  | .gtc => '>'
  | .gec => 'B'

/-- Well-formedness of one program line, given as its leading digit string and the
rest of the line: nonempty digits; a rest free of newline and NUL bytes that does
not begin with a further digit; and a line number that is a genuine (nonnegative)
16-bit value. -/
def lineOk (p : List Char × List Char) : Prop :=
  p.1 ≠ [] ∧ (∀ c ∈ p.1, isDigitC c = true) ∧
  (∀ c ∈ p.2, c ≠ '\n' ∧ c ≠ nulC) ∧
  isDigitC (p.2.headD '\n') = false ∧ decNat p.1 ≤ 32767

/-- The text of one line: digits, rest of line, newline. -/
def lineText (p : List Char × List Char) : List Char := p.1 ++ (p.2 ++ ['\n'])

/-- The program text assembled from a list of lines. -/
def progText (ls : List (List Char × List Char)) : List Char := (ls.map lineText).flatten

/-- The spec-side line lookup that `searchLine` is claimed to implement: the first
line, in textual order, whose number is at least the target, together with the byte
offset of the start of that line; `none` when no line qualifies. -/
def specFind : List (List Char × List Char) → Int → Option (Int × Nat)
  | [], _ => none
  | p :: tl, t =>
    if t ≤ i16 (decNat p.1) then some (i16 (decNat p.1), 0)
    else (specFind tl t).map fun vo => (vo.1, (lineText p).length + vo.2)

/-- The value component of the binary-operator switch, by operator code. -/
def applyOpV (c : Char) (v w : Int) : Int :=
  if c = '+' then i16 (v + w)
  else if c = '-' then i16 (v - w)
  else if c = '*' then i16 (v * w)
  else if c = '/' then (if w = 0 then -1 else i16 (Int.tdiv v w))
  else if c = '=' then (if v = w then 1 else 0)
  else if c = '<' then (if v < w then 1 else 0)
  else if c = 'N' then (if v ≠ w then 1 else 0)
  else if c = 'A' then (if v ≤ w then 1 else 0)
  else if c = '>' then (if w < v then 1 else 0)
  else if c = 'B' then (if w ≤ v then 1 else 0)
  else v

/-- The remainder register after the binary-operator switch. -/
def applyOpMod (c : Char) (v w mod0 : Int) : Int :=
  if c = '/' ∧ w ≠ 0 then i16 (Int.tmod v w) else mod0

/-- The output appended by the binary-operator switch. -/
def applyOpOut (c : Char) (v w : Int) : List Char :=
  if c = '/' ∧ w = 0 then dbzMsg else []

/-- A cursor at offset 0 of an isolated expression string, over an arbitrary base
state. -/
def exprAt (base : Machine) (l : List Char) : Machine := { base with s := l, pos := 0 }

/-- The flat source text `t1 op1 t2 op2 t3` over digit terms. -/
def flatStr (ds1 ds2 ds3 : List Char) (o1 o2 : BOp) : List Char :=
  ds1 ++ (opStr o1 ++ (ds2 ++ (opStr o2 ++ ds3)))

/-- The parenthesized source text `(t1 op1 t2) op2 t3` over digit terms. -/
def parStr (ds1 ds2 ds3 : List Char) (o1 o2 : BOp) : List Char :=
  '(' :: (ds1 ++ (opStr o1 ++ (ds2 ++ (')' :: (opStr o2 ++ ds3)))))

/-- Left fold of the two operator applications, threading the interpreter state:
`(t1 op1 t2) op2 t3` as a value computation. -/
def chain2 (o1 o2 : BOp) (v1 v2 v3 : Int) (m : Machine) : Int × Machine :=
  applyOp (opCode o2) (applyOp (opCode o1) v1 v2 m).1 v3 (applyOp (opCode o1) v1 v2 m).2

/-- Decidability of the line well-formedness predicate, for concrete witnesses. -/
instance lineOkDec : DecidablePred lineOk := fun p => by
  unfold lineOk
  exact inferInstance

/-- The prefix kept by `takeWhile` is never longer than the list. -/
theorem spanLen_le (p : Char → Bool) (l : List Char) : (l.takeWhile p).length ≤ l.length := by
  induction l with
  | nil => simp [List.takeWhile]
  | cons a tl ih =>
    simp only [List.takeWhile]
    cases p a <;> simp <;> omega

/-- Unfolding equation for `term`. -/
theorem term_succ (f : Nat) : term (f + 1) = termBody (expression f) (term f) := rfl

/-- Unfolding equation for `expression`. -/
theorem expression_succ (f : Nat) :
    expression (f + 1) = exprBody (term f) (exprLoop f) := rfl

/-- Unfolding equation for the expression loop. -/
theorem exprLoop_succ (f : Nat) :
    exprLoop (f + 1) = exprLoopBody (term f) (exprLoop f) := rfl

/-- Unfolding equation for the scanning loop. -/
theorem searchScanF_succ (g : Nat) : searchScanF (g + 1) = searchScanBody (searchScanF g) := rfl

/-- Unfolding equation for the outer loop of `run`. -/
theorem runOuter_succ (f : Nat) :
    runOuter (f + 1) = runOuterBody (runOuter f) (runInner f) := rfl

/-- Unfolding equation for the inner loop of `run`. -/
theorem runInner_succ (f : Nat) :
    runInner (f + 1) = runInnerBody f (runInner f) := rfl

/-- A maximal satisfying prefix: `takeWhile` consumes exactly `a` when every
character of `a` satisfies `p` and the first character after `a` (the null byte
when nothing follows) does not. -/
theorem takeWhile_append_all (p : Char → Bool) (a b : List Char)
    (h1 : ∀ c ∈ a, p c = true) (h2 : p (b.headD nulC) = false) :
    (a ++ b).takeWhile p = a := by
  induction a with
  | nil =>
    cases b with
    | nil => rfl
    | cons x xs =>
      have hx : p x = false := by simpa using h2
      simp [List.takeWhile, hx]
  | cons x xs ih =>
    simp only [List.cons_append, List.takeWhile, h1 x (by simp)]
    simpa using ih (fun c hc => h1 c (by simp [hc]))

/-- Advancing by 0 does not move. -/
theorem madv_zero (m : Machine) : madv m 0 = m := by
  cases m; simp [madv]

/-- Two advances compose. -/
theorem madv_madv (m : Machine) (a b : Nat) : madv (madv m a) b = madv m (a + b) := by
  simp [madv, Nat.add_assoc]

/-- The suffix after an advance. -/
theorem suffix_madv (m : Machine) (k : Nat) : suffix (madv m k) = (suffix m).drop k := by
  simp [suffix, madv, List.drop_drop, Nat.add_comm]

/-- The current character is the head of the suffix. -/
theorem curc_cons {m : Machine} {c : Char} {r : List Char} (h : suffix m = c :: r) :
    curc m = c := by
  simp [curc, h]

/-- A digit character differs from any character whose code is outside 48-57. -/
theorem digit_ne {c : Char} (h : isDigitC c = true) (d : Char)
    (hd : d.toNat < 48 ∨ 57 < d.toNat) : c ≠ d := by
  intro e
  subst e
  simp [isDigitC] at h
  omega

/-- A digit character is not a letter. -/
theorem digit_not_alpha {c : Char} (h : isDigitC c = true) : isAlphaC c = false := by
  simp [isDigitC] at h
  simp [isAlphaC]
  omega

/-- `skipSpaces` does not move when the scanner is not looking at a space. -/
theorem skipSpaces_eq {m : Machine} (h : curc m ≠ ' ') : skipSpaces m = m := by
  unfold skipSpaces spanLen
  cases hs : suffix m with
  | nil => simp [madv_zero]
  | cons c l =>
    have : c ≠ ' ' := by simpa [curc, hs] using h
    simp [List.takeWhile, this, madv_zero]

/-- `getVariable` does not fire on a non-letter. -/
theorem getVariable_none {m : Machine} (h : isAlphaC (curc m) = false) :
    getVariable m = (nulC, m) := by
  simp [getVariable, h]

/-- `term` on a nonempty digit string followed by a non-digit: the constant branch
fires and consumes exactly the digits, leaving the rest of the state untouched. -/
theorem term_digits (f : Nat) (m : Machine) (ds r : List Char)
    (hne : ds ≠ []) (hds : ∀ c ∈ ds, isDigitC c = true)
    (hr : isDigitC (r.headD nulC) = false) (hsuf : suffix m = ds ++ r) :
    term (f + 1) m = Res.ok (i16 (clampPos 64 (decNat ds)), madv m ds.length) := by
  obtain ⟨d, ds', rfl⟩ : ∃ d ds', ds = d :: ds' := by
    cases ds with
    | nil => exact absurd rfl hne
    | cons d ds' => exact ⟨d, ds', rfl⟩
  have hd : isDigitC d = true := hds d (by simp)
  have hcur : curc m = d := curc_cons (by simpa using hsuf)
  have hss : skipSpaces m = m := skipSpaces_eq (by rw [hcur]; exact digit_ne hd ' ' (by decide))
  have hgv : getVariable m = (nulC, m) :=
    getVariable_none (by rw [hcur]; exact digit_not_alpha hd)
  have htw : (suffix m).takeWhile isDigitC = d :: ds' := by
    rw [hsuf]
    exact takeWhile_append_all _ _ _ hds hr
  have h3 : isDigitC (curc m) = true := by rw [hcur]; exact hd
  have hdec : getDecimalValue m = (i16 (clampPos 64 (decNat (d :: ds'))), madv m (d :: ds').length) := by
    simp [getDecimalValue, h3, htw]
  have h1 : ¬ curc m = '"' := by rw [hcur]; exact digit_ne hd _ (by decide)
  have h2 : ¬ curc m = '$' := by rw [hcur]; exact digit_ne hd _ (by decide)
  have hgc : getConstant m = (i16 (clampPos 64 (decNat (d :: ds'))), madv m (d :: ds').length) := by
    simp [getConstant, h1, h2, h3, hdec]
  have h4 : ¬ curc m = '(' := by rw [hcur]; exact digit_ne hd _ (by decide)
  have h6 : ¬ curc m = '?' := by rw [hcur]; exact digit_ne hd _ (by decide)
  have h7 : ¬ (madv m (d :: ds').length).pos = m.pos := by
    simp [madv]
  rw [term_succ]
  simp only [termBody, hss, hgv, hgc]
  simp [h1, h2, h4, h6, h7]
  intro _ habs
  simp [madv] at habs

/-- A line number within the positive int16 range is untouched by `Atoi`'s
clamping. -/
theorem clampPos64_small (n : Nat) (h : n ≤ 32767) : clampPos 64 n = (n : Int) := by
  have hp : (2 : Nat) ^ (64 - 1) = 9223372036854775808 := by norm_num
  have hb : n < 2 ^ (64 - 1) := by omega
  unfold clampPos
  rw [if_pos hb]

/-- A value within the positive int16 range is a fixed point of the 16-bit wrap. -/
theorem i16_small (n : Nat) (h : n ≤ 32767) : i16 (n : Int) = (n : Int) := by
  unfold i16
  omega

/-- The first character of an operator spelling is not a digit. -/
theorem opStr_head_not_digit (o : BOp) (x : List Char) :
    isDigitC ((opStr o ++ x).headD nulC) = false := by
  cases o <;> simp +decide [opStr]

/-- `getOperator2` on an operator spelling followed by a digit recognizes exactly
that operator and consumes exactly its spelling. -/
theorem getOperator2_op (o : BOp) (m : Machine) (d : Char) (r : List Char)
    (hsuf : suffix m = opStr o ++ (d :: r)) (hd : isDigitC d = true) :
    getOperator2 m = (opCode o, madv m (opStr o).length) := by
  have hne1 : ¬ d = '>' := digit_ne hd _ (by decide)
  have hne2 : ¬ d = '=' := digit_ne hd _ (by decide)
  cases o with
  | add =>
    have hc : curc m = '+' := curc_cons (by simpa [opStr] using hsuf)
    simp +decide [getOperator2, hc, opStr, opCode]
  | sub =>
    have hc : curc m = '-' := curc_cons (by simpa [opStr] using hsuf)
    simp +decide [getOperator2, hc, opStr, opCode]
  | mul =>
    have hc : curc m = '*' := curc_cons (by simpa [opStr] using hsuf)
    simp +decide [getOperator2, hc, opStr, opCode]
  | div =>
    have hc : curc m = '/' := curc_cons (by simpa [opStr] using hsuf)
    simp +decide [getOperator2, hc, opStr, opCode]
  | eqc =>
    have hc : curc m = '=' := curc_cons (by simpa [opStr] using hsuf)
    simp +decide [getOperator2, hc, opStr, opCode]
  | ltc =>
    have hc : curc m = '<' := curc_cons (by simpa [opStr] using hsuf)
    have hc2 : curc (madv m 1) = d := by
      refine curc_cons (r := r) ?_
      rw [suffix_madv, hsuf]
      simp [opStr]
    simp +decide [getOperator2, hc, hc2, hne1, hne2, opStr, opCode]
  | nec =>
    have hc : curc m = '<' := curc_cons (by simpa [opStr] using hsuf)
    have hc2 : curc (madv m 1) = '>' := by
      refine curc_cons (r := d :: r) ?_
      rw [suffix_madv, hsuf]
      simp [opStr]
    simp +decide [getOperator2, hc, hc2, opStr, opCode, madv_madv]
  | lec =>
    have hc : curc m = '<' := curc_cons (by simpa [opStr] using hsuf)
    have hc2 : curc (madv m 1) = '=' := by
      refine curc_cons (r := d :: r) ?_
      rw [suffix_madv, hsuf]
      simp [opStr]
    simp +decide [getOperator2, hc, hc2, opStr, opCode, madv_madv]
  | gtc =>
    have hc : curc m = '>' := curc_cons (by simpa [opStr] using hsuf)
    have hc2 : curc (madv m 1) = d := by
      refine curc_cons (r := r) ?_
      rw [suffix_madv, hsuf]
      simp [opStr]
    simp +decide [getOperator2, hc, hc2, hne2, opStr, opCode]
  | gec =>
    have hc : curc m = '>' := curc_cons (by simpa [opStr] using hsuf)
    have hc2 : curc (madv m 1) = '=' := by
      refine curc_cons (r := d :: r) ?_
      rw [suffix_madv, hsuf]
      simp [opStr]
    simp +decide [getOperator2, hc, hc2, opStr, opCode, madv_madv]

/-- `getOperator2` yields the no-operator code 0 at end of text or at `)`. -/
theorem getOperator2_none (m : Machine) (h : curc m = nulC ∨ curc m = ')') :
    getOperator2 m = (nulC, m) := by
  rcases h with h | h <;> simp +decide [getOperator2, h]

/-- The expression loop stops at end of text or at `)`. -/
theorem exprLoop_stop (f : Nat) (v : Int) (m : Machine)
    (h : curc m = nulC ∨ curc m = ')') : exprLoop (f + 1) v m = Res.ok (v, m) := by
  rw [exprLoop_succ]
  simp only [exprLoopBody, getOperator2_none m h]
  simp +decide

/-- No operator code is the null byte. -/
theorem opCode_ne_nul (o : BOp) : opCode o ≠ nulC := by
  cases o <;> decide

/-- Dropping exactly the length of a prefix. -/
theorem drop_prefix_len (a b : List Char) (n : Nat) (h : n = a.length) :
    (a ++ b).drop n = b := by
  subst h
  exact List.drop_left a b

/-- Characterization of `applyOp`: the value is `applyOpV`, the machine keeps all
fields except that a nonzero division overwrites the remainder register
(`applyOpMod`) and a zero division appends the message (`applyOpOut`). -/
theorem applyOp_eq (c : Char) (v w : Int) (m : Machine) :
    applyOp c v w m =
      (applyOpV c v w,
        { m with mod := applyOpMod c v w m.mod, out := m.out ++ applyOpOut c v w }) := by
  obtain ⟨mv, mm, mp, mq, ms, mo, ml, mk, mt, md, mf, mi, mr, mfs, mout⟩ := m
  by_cases h1 : c = '+'
  · subst h1; simp +decide [applyOp, applyOpV, applyOpMod, applyOpOut]
  by_cases h2 : c = '-'
  · subst h2; simp +decide [applyOp, applyOpV, applyOpMod, applyOpOut]
  by_cases h3 : c = '*'
  · subst h3; simp +decide [applyOp, applyOpV, applyOpMod, applyOpOut]
  by_cases h4 : c = '/'
  · subst h4
    by_cases hw : w = 0
    · subst hw; simp +decide [applyOp, applyOpV, applyOpMod, applyOpOut]
    · simp +decide [applyOp, applyOpV, applyOpMod, applyOpOut, hw]
  by_cases h5 : c = '='
  · subst h5; simp +decide [applyOp, applyOpV, applyOpMod, applyOpOut]
  by_cases h6 : c = '<'
  · subst h6; simp +decide [applyOp, applyOpV, applyOpMod, applyOpOut]
  by_cases h7 : c = 'N'
  · subst h7; simp +decide [applyOp, applyOpV, applyOpMod, applyOpOut]
  by_cases h8 : c = 'A'
  · subst h8; simp +decide [applyOp, applyOpV, applyOpMod, applyOpOut]
  by_cases h9 : c = '>'
  · subst h9; simp +decide [applyOp, applyOpV, applyOpMod, applyOpOut]
  by_cases h10 : c = 'B'
  · subst h10; simp +decide [applyOp, applyOpV, applyOpMod, applyOpOut]
  simp [applyOp, applyOpV, applyOpMod, applyOpOut, h1, h2, h3, h4, h5, h6, h7, h8, h9, h10]

/-- `applyOp` commutes with advancing the cursor: its machine effects touch only
the remainder register and the output field. -/
theorem applyOp_madv (c : Char) (v w : Int) (m : Machine) (k : Nat) :
    applyOp c v w (madv m k) = ((applyOp c v w m).1, madv (applyOp c v w m).2 k) := by
  rw [applyOp_eq, applyOp_eq]
  simp [madv]

/-- The unread suffix is unchanged by `applyOp`. -/
theorem suffix_applyOp (c : Char) (v w : Int) (m : Machine) :
    suffix (applyOp c v w m).2 = suffix m := by
  rw [applyOp_eq]
  simp [suffix]

/-- The value produced by `applyOp` does not depend on the machine argument. -/
theorem applyOp_val (c : Char) (v w : Int) (m m' : Machine) :
    (applyOp c v w m).1 = (applyOp c v w m').1 := by
  rw [applyOp_eq, applyOp_eq]

/-- The remainder register and the output after `applyOp` depend only on their
prior values. -/
theorem applyOp_obs (c : Char) (v w : Int) (m m' : Machine)
    (hmod : m.mod = m'.mod) (hout : m.out = m'.out) :
    (applyOp c v w m).2.mod = (applyOp c v w m').2.mod ∧
    (applyOp c v w m).2.out = (applyOp c v w m').2.out := by
  rw [applyOp_eq, applyOp_eq]
  simp [hmod, hout]

/-- One iteration of the expression loop over an operator spelling followed by a
digit term: recognize the operator, parse the digits, apply the operator. -/
theorem exprLoop_op_digits (g : Nat) (v : Int) (o : BOp) (ds r : List Char) (M : Machine)
    (hne : ds ≠ []) (hds : ∀ c ∈ ds, isDigitC c = true)
    (hr : isDigitC (r.headD nulC) = false)
    (hsuf : suffix M = opStr o ++ (ds ++ r)) :
    exprLoop (g + 2) v M =
      exprLoop (g + 1)
        (applyOp (opCode o) v (i16 (clampPos 64 (decNat ds))) M).1
        (madv (applyOp (opCode o) v (i16 (clampPos 64 (decNat ds))) M).2
          ((opStr o).length + ds.length)) := by
  obtain ⟨d, ds', rfl⟩ : ∃ d ds', ds = d :: ds' := by
    cases ds with
    | nil => exact absurd rfl hne
    | cons d ds' => exact ⟨d, ds', rfl⟩
  have hop : getOperator2 M = (opCode o, madv M (opStr o).length) :=
    getOperator2_op o M d (ds' ++ r) (by simpa using hsuf) (hds d (by simp))
  have hterm : term (g + 1) (madv M (opStr o).length) =
      Res.ok (i16 (clampPos 64 (decNat (d :: ds'))), madv (madv M (opStr o).length) (d :: ds').length) := by
    refine term_digits g _ _ r hne hds hr ?_
    rw [suffix_madv, hsuf, List.drop_left]
  have hl : exprLoop (g + 2) = exprLoopBody (term (g + 1)) (exprLoop (g + 1)) :=
    exprLoop_succ (g + 1)
  rw [hl]
  simp only [exprLoopBody, hop, hterm, Res.bind]
  rw [if_neg (by simpa using opCode_ne_nul o)]
  simp only [Res.bind, madv_madv, applyOp_madv]

/-- Evaluation of the flat string `t1 op1 t2 op2 t3` over digit terms: one term,
then the two operator applications folded left to right. -/
theorem expression_flat (ds1 ds2 ds3 : List Char) (o1 o2 : BOp) (base : Machine) (f : Nat)
    (h1 : ds1 ≠ []) (h1d : ∀ c ∈ ds1, isDigitC c = true)
    (h2 : ds2 ≠ []) (h2d : ∀ c ∈ ds2, isDigitC c = true)
    (h3 : ds3 ≠ []) (h3d : ∀ c ∈ ds3, isDigitC c = true) :
    expression (f + 5) (exprAt base (flatStr ds1 ds2 ds3 o1 o2)) =
      Res.ok ((chain2 o1 o2 (i16 (clampPos 64 (decNat ds1))) (i16 (clampPos 64 (decNat ds2))) (i16 (clampPos 64 (decNat ds3)))
          (exprAt base (flatStr ds1 ds2 ds3 o1 o2))).1,
        madv (chain2 o1 o2 (i16 (clampPos 64 (decNat ds1))) (i16 (clampPos 64 (decNat ds2))) (i16 (clampPos 64 (decNat ds3)))
          (exprAt base (flatStr ds1 ds2 ds3 o1 o2))).2 (flatStr ds1 ds2 ds3 o1 o2).length) := by
  obtain ⟨d1, t1, rfl⟩ : ∃ d t, ds1 = d :: t := by
    cases ds1 with
    | nil => exact absurd rfl h1
    | cons a b => exact ⟨a, b, rfl⟩
  obtain ⟨d2, t2, rfl⟩ : ∃ d t, ds2 = d :: t := by
    cases ds2 with
    | nil => exact absurd rfl h2
    | cons a b => exact ⟨a, b, rfl⟩
  obtain ⟨d3, t3, rfl⟩ : ∃ d t, ds3 = d :: t := by
    cases ds3 with
    | nil => exact absurd rfl h3
    | cons a b => exact ⟨a, b, rfl⟩
  have hd1 : isDigitC d1 = true := h1d _ (by simp)
  set F := flatStr (d1 :: t1) (d2 :: t2) (d3 :: t3) o1 o2 with hF
  set MF := exprAt base F with hMF
  set v1 := i16 (clampPos 64 (decNat (d1 :: t1))) with hv1
  set v2 := i16 (clampPos 64 (decNat (d2 :: t2))) with hv2
  set v3 := i16 (clampPos 64 (decNat (d3 :: t3))) with hv3
  have hsufF : suffix MF = F := by simp [hMF, exprAt, suffix]
  have hFsplit1 : F = (d1 :: t1) ++ (opStr o1 ++ ((d2 :: t2) ++ (opStr o2 ++ (d3 :: t3)))) := hF
  have hcF : curc MF = d1 := curc_cons (by rw [hsufF]; exact hFsplit1)
  have hssF : skipSpaces MF = MF := skipSpaces_eq (by rw [hcF]; exact digit_ne hd1 _ (by decide))
  have hE : expression (f + 5) = exprBody (term (f + 4)) (exprLoop (f + 4)) :=
    expression_succ (f + 4)
  have htF : term (f + 4) MF = Res.ok (v1, madv MF (d1 :: t1).length) := by
    refine term_digits (f + 3) MF (d1 :: t1)
      (opStr o1 ++ ((d2 :: t2) ++ (opStr o2 ++ (d3 :: t3)))) h1 h1d
      (opStr_head_not_digit o1 _) ?_
    rw [hsufF]
    exact hFsplit1
  have hsuf1 : suffix (madv MF (d1 :: t1).length) =
      opStr o1 ++ ((d2 :: t2) ++ (opStr o2 ++ (d3 :: t3))) := by
    rw [suffix_madv, hsufF, hFsplit1]
    exact List.drop_left _ _
  have hstep1 : exprLoop (f + 4) v1 (madv MF (d1 :: t1).length) =
      exprLoop (f + 3) (applyOp (opCode o1) v1 v2 (madv MF (d1 :: t1).length)).1
        (madv (applyOp (opCode o1) v1 v2 (madv MF (d1 :: t1).length)).2
          ((opStr o1).length + (d2 :: t2).length)) :=
    exprLoop_op_digits (f + 2) v1 o1 (d2 :: t2) (opStr o2 ++ (d3 :: t3)) _ h2 h2d
      (opStr_head_not_digit o2 _) hsuf1
  have hsuf2 : suffix (madv (applyOp (opCode o1) v1 v2 MF).2
      ((d1 :: t1).length + ((opStr o1).length + (d2 :: t2).length))) =
      opStr o2 ++ ((d3 :: t3) ++ []) := by
    rw [suffix_madv, suffix_applyOp, hsufF]
    rw [show F = ((d1 :: t1) ++ (opStr o1 ++ (d2 :: t2))) ++ (opStr o2 ++ (d3 :: t3)) from by
      rw [hFsplit1]; simp [List.append_assoc]]
    rw [drop_prefix_len _ _ _ (by simp only [List.length_append]; try omega)]
    simp
  have hstep2 : exprLoop (f + 3) (applyOp (opCode o1) v1 v2 MF).1
      (madv (applyOp (opCode o1) v1 v2 MF).2
        ((d1 :: t1).length + ((opStr o1).length + (d2 :: t2).length))) =
      exprLoop (f + 2)
        (applyOp (opCode o2) (applyOp (opCode o1) v1 v2 MF).1 v3
          (madv (applyOp (opCode o1) v1 v2 MF).2
            ((d1 :: t1).length + ((opStr o1).length + (d2 :: t2).length)))).1
        (madv (applyOp (opCode o2) (applyOp (opCode o1) v1 v2 MF).1 v3
          (madv (applyOp (opCode o1) v1 v2 MF).2
            ((d1 :: t1).length + ((opStr o1).length + (d2 :: t2).length)))).2
          ((opStr o2).length + (d3 :: t3).length)) :=
    exprLoop_op_digits (f + 1) _ o2 (d3 :: t3) [] _ h3 h3d (by decide) hsuf2
  have hlen : ((d1 :: t1).length + ((opStr o1).length + (d2 :: t2).length)) +
      ((opStr o2).length + (d3 :: t3).length) = F.length := by
    rw [hFsplit1]
    simp only [List.length_append]
    omega
  have hcur0 : curc (madv (applyOp (opCode o2) (applyOp (opCode o1) v1 v2 MF).1 v3
      (applyOp (opCode o1) v1 v2 MF).2).2 F.length) = nulC := by
    have hnil : suffix (madv (applyOp (opCode o2) (applyOp (opCode o1) v1 v2 MF).1 v3
        (applyOp (opCode o1) v1 v2 MF).2).2 F.length) = [] := by
      rw [suffix_madv, suffix_applyOp, suffix_applyOp, hsufF]
      exact List.drop_length F
    simp [curc, hnil]
  have hstop : exprLoop (f + 2)
      (applyOp (opCode o2) (applyOp (opCode o1) v1 v2 MF).1 v3
        (applyOp (opCode o1) v1 v2 MF).2).1
      (madv (applyOp (opCode o2) (applyOp (opCode o1) v1 v2 MF).1 v3
        (applyOp (opCode o1) v1 v2 MF).2).2 F.length) =
      Res.ok ((applyOp (opCode o2) (applyOp (opCode o1) v1 v2 MF).1 v3
        (applyOp (opCode o1) v1 v2 MF).2).1,
        madv (applyOp (opCode o2) (applyOp (opCode o1) v1 v2 MF).1 v3
          (applyOp (opCode o1) v1 v2 MF).2).2 F.length) :=
    exprLoop_stop (f + 1) _ _ (Or.inl hcur0)
  rw [hE]
  simp only [exprBody, hssF, htF, Res.bind]
  rw [hstep1]
  simp only [applyOp_madv, madv_madv]
  rw [hstep2]
  simp only [applyOp_madv, madv_madv]
  rw [hlen, hstop]
  simp only [chain2]

/-- Evaluation of the parenthesized string `(t1 op1 t2) op2 t3` over digit terms:
the inner expression evaluates the first operator application, the closing
parenthesis is consumed, and the second operator is applied - the same fold with
the same observable effects as the flat form. -/
theorem expression_par (ds1 ds2 ds3 : List Char) (o1 o2 : BOp) (base : Machine) (f : Nat)
    (h1 : ds1 ≠ []) (h1d : ∀ c ∈ ds1, isDigitC c = true)
    (h2 : ds2 ≠ []) (h2d : ∀ c ∈ ds2, isDigitC c = true)
    (h3 : ds3 ≠ []) (h3d : ∀ c ∈ ds3, isDigitC c = true) :
    expression (f + 5) (exprAt base (parStr ds1 ds2 ds3 o1 o2)) =
      Res.ok ((chain2 o1 o2 (i16 (clampPos 64 (decNat ds1))) (i16 (clampPos 64 (decNat ds2))) (i16 (clampPos 64 (decNat ds3)))
          (exprAt base (parStr ds1 ds2 ds3 o1 o2))).1,
        madv (chain2 o1 o2 (i16 (clampPos 64 (decNat ds1))) (i16 (clampPos 64 (decNat ds2))) (i16 (clampPos 64 (decNat ds3)))
          (exprAt base (parStr ds1 ds2 ds3 o1 o2))).2 (parStr ds1 ds2 ds3 o1 o2).length) := by
  obtain ⟨d1, t1, rfl⟩ : ∃ d t, ds1 = d :: t := by
    cases ds1 with
    | nil => exact absurd rfl h1
    | cons a b => exact ⟨a, b, rfl⟩
  obtain ⟨d2, t2, rfl⟩ : ∃ d t, ds2 = d :: t := by
    cases ds2 with
    | nil => exact absurd rfl h2
    | cons a b => exact ⟨a, b, rfl⟩
  obtain ⟨d3, t3, rfl⟩ : ∃ d t, ds3 = d :: t := by
    cases ds3 with
    | nil => exact absurd rfl h3
    | cons a b => exact ⟨a, b, rfl⟩
  have hd1 : isDigitC d1 = true := h1d _ (by simp)
  set P := parStr (d1 :: t1) (d2 :: t2) (d3 :: t3) o1 o2 with hP
  set MP := exprAt base P with hMP
  set v1 := i16 (clampPos 64 (decNat (d1 :: t1))) with hv1
  set v2 := i16 (clampPos 64 (decNat (d2 :: t2))) with hv2
  set v3 := i16 (clampPos 64 (decNat (d3 :: t3))) with hv3
  have hsufP : suffix MP = P := by simp [hMP, exprAt, suffix]
  have hPsplit : P =
      '(' :: ((d1 :: t1) ++ (opStr o1 ++ ((d2 :: t2) ++ (')' :: (opStr o2 ++ (d3 :: t3)))))) := hP
  have hcP : curc MP = '(' := curc_cons (by rw [hsufP]; exact hPsplit)
  have hssP : skipSpaces MP = MP := skipSpaces_eq (by rw [hcP]; decide)
  have hskl : skipChar '(' MP = madv MP 1 := by simp [skipChar, hcP]
  have hsufq : suffix (madv MP 1) =
      (d1 :: t1) ++ (opStr o1 ++ ((d2 :: t2) ++ (')' :: (opStr o2 ++ (d3 :: t3))))) := by
    rw [suffix_madv, hsufP, hPsplit]
    rfl
  have hc1 : curc (madv MP 1) = d1 :=
    curc_cons (r := t1 ++ (opStr o1 ++ ((d2 :: t2) ++ (')' :: (opStr o2 ++ (d3 :: t3))))))
      (by rw [hsufq]; rfl)
  have hss1 : skipSpaces (madv MP 1) = madv MP 1 :=
    skipSpaces_eq (by rw [hc1]; exact digit_ne hd1 _ (by decide))
  have hE3 : expression (f + 3) = exprBody (term (f + 2)) (exprLoop (f + 2)) :=
    expression_succ (f + 2)
  have hterm1 : term (f + 2) (madv MP 1) =
      Res.ok (v1, madv (madv MP 1) (d1 :: t1).length) :=
    term_digits (f + 1) _ _ _ h1 h1d (opStr_head_not_digit o1 _) hsufq
  have hsufo1 : suffix (madv MP (1 + (d1 :: t1).length)) =
      opStr o1 ++ ((d2 :: t2) ++ (')' :: (opStr o2 ++ (d3 :: t3)))) := by
    rw [suffix_madv, hsufP]
    rw [show P = ('(' :: (d1 :: t1)) ++
        (opStr o1 ++ ((d2 :: t2) ++ (')' :: (opStr o2 ++ (d3 :: t3))))) from hPsplit]
    exact drop_prefix_len _ _ _ (by simp only [List.length_cons]; omega)
  have hstep1p : exprLoop (f + 2) v1 (madv MP (1 + (d1 :: t1).length)) =
      exprLoop (f + 1) (applyOp (opCode o1) v1 v2 (madv MP (1 + (d1 :: t1).length))).1
        (madv (applyOp (opCode o1) v1 v2 (madv MP (1 + (d1 :: t1).length))).2
          ((opStr o1).length + (d2 :: t2).length)) :=
    exprLoop_op_digits f v1 o1 (d2 :: t2) (')' :: (opStr o2 ++ (d3 :: t3))) _ h2 h2d
      (by simp only [List.headD_cons]; decide) hsufo1
  have hsufrp : suffix (madv (applyOp (opCode o1) v1 v2 MP).2
      ((1 + (d1 :: t1).length) + ((opStr o1).length + (d2 :: t2).length))) =
      ')' :: (opStr o2 ++ (d3 :: t3)) := by
    rw [suffix_madv, suffix_applyOp, hsufP]
    rw [show P = ('(' :: ((d1 :: t1) ++ (opStr o1 ++ (d2 :: t2)))) ++
        (')' :: (opStr o2 ++ (d3 :: t3))) from by rw [hPsplit]; simp [List.append_assoc]]
    exact drop_prefix_len _ _ _ (by simp only [List.length_cons, List.length_append, List.length_nil]; omega)
  have hstopp : exprLoop (f + 1)
      (applyOp (opCode o1) v1 v2 MP).1
      (madv (applyOp (opCode o1) v1 v2 MP).2
        ((1 + (d1 :: t1).length) + ((opStr o1).length + (d2 :: t2).length))) =
      Res.ok ((applyOp (opCode o1) v1 v2 MP).1,
        madv (applyOp (opCode o1) v1 v2 MP).2
          ((1 + (d1 :: t1).length) + ((opStr o1).length + (d2 :: t2).length))) :=
    exprLoop_stop f _ _ (Or.inr (curc_cons hsufrp))
  have hinner : expression (f + 3) (madv MP 1) =
      Res.ok ((applyOp (opCode o1) v1 v2 MP).1,
        madv (applyOp (opCode o1) v1 v2 MP).2
          ((1 + (d1 :: t1).length) + ((opStr o1).length + (d2 :: t2).length))) := by
    rw [hE3]
    simp only [exprBody, hss1, hterm1, Res.bind]
    rw [madv_madv, hstep1p]
    simp only [applyOp_madv, madv_madv]
    exact hstopp
  have hcr : curc (madv (applyOp (opCode o1) v1 v2 MP).2
      ((1 + (d1 :: t1).length) + ((opStr o1).length + (d2 :: t2).length))) = ')' :=
    curc_cons hsufrp
  have hssr : skipSpaces (madv (applyOp (opCode o1) v1 v2 MP).2
      ((1 + (d1 :: t1).length) + ((opStr o1).length + (d2 :: t2).length))) =
      madv (applyOp (opCode o1) v1 v2 MP).2
        ((1 + (d1 :: t1).length) + ((opStr o1).length + (d2 :: t2).length)) :=
    skipSpaces_eq (by rw [hcr]; decide)
  have hskr : skipChar ')' (madv (applyOp (opCode o1) v1 v2 MP).2
      ((1 + (d1 :: t1).length) + ((opStr o1).length + (d2 :: t2).length))) =
      madv (madv (applyOp (opCode o1) v1 v2 MP).2
        ((1 + (d1 :: t1).length) + ((opStr o1).length + (d2 :: t2).length))) 1 := by
    unfold skipChar
    rw [hcr]
    simp
  have ht4 : term (f + 4) = termBody (expression (f + 3)) (term (f + 3)) :=
    term_succ (f + 3)
  have htP : term (f + 4) MP =
      Res.ok ((applyOp (opCode o1) v1 v2 MP).1,
        madv (applyOp (opCode o1) v1 v2 MP).2
          (((1 + (d1 :: t1).length) + ((opStr o1).length + (d2 :: t2).length)) + 1)) := by
    rw [ht4]
    simp only [termBody, hssP]
    rw [if_pos hcP, hskl, hinner]
    simp only [Res.bind]
    rw [hssr, hskr, madv_madv]
  have hE : expression (f + 5) = exprBody (term (f + 4)) (exprLoop (f + 4)) :=
    expression_succ (f + 4)
  have hsufo2 : suffix (madv (applyOp (opCode o1) v1 v2 MP).2
      ((((1 + (d1 :: t1).length) + ((opStr o1).length + (d2 :: t2).length)) + 1))) =
      opStr o2 ++ ((d3 :: t3) ++ []) := by
    rw [suffix_madv, suffix_applyOp, hsufP]
    rw [show P = ('(' :: ((d1 :: t1) ++ (opStr o1 ++ ((d2 :: t2) ++ [')'])))) ++
        (opStr o2 ++ (d3 :: t3)) from by rw [hPsplit]; simp [List.append_assoc]]
    rw [drop_prefix_len _ _ _ (by simp only [List.length_cons, List.length_append, List.length_nil]; omega)]
    simp
  have hstep2p : exprLoop (f + 4) (applyOp (opCode o1) v1 v2 MP).1
      (madv (applyOp (opCode o1) v1 v2 MP).2
        (((1 + (d1 :: t1).length) + ((opStr o1).length + (d2 :: t2).length)) + 1)) =
      exprLoop (f + 3)
        (applyOp (opCode o2) (applyOp (opCode o1) v1 v2 MP).1 v3
          (madv (applyOp (opCode o1) v1 v2 MP).2
            (((1 + (d1 :: t1).length) + ((opStr o1).length + (d2 :: t2).length)) + 1))).1
        (madv (applyOp (opCode o2) (applyOp (opCode o1) v1 v2 MP).1 v3
          (madv (applyOp (opCode o1) v1 v2 MP).2
            (((1 + (d1 :: t1).length) + ((opStr o1).length + (d2 :: t2).length)) + 1))).2
          ((opStr o2).length + (d3 :: t3).length)) :=
    exprLoop_op_digits (f + 2) _ o2 (d3 :: t3) [] _ h3 h3d (by decide) hsufo2
  have hlenP : ((((1 + (d1 :: t1).length) + ((opStr o1).length + (d2 :: t2).length)) + 1)) +
      ((opStr o2).length + (d3 :: t3).length) = P.length := by
    rw [hPsplit]
    simp only [List.length_cons, List.length_append]
    omega
  have hcur0p : curc (madv (applyOp (opCode o2) (applyOp (opCode o1) v1 v2 MP).1 v3
      (applyOp (opCode o1) v1 v2 MP).2).2 P.length) = nulC := by
    have hnil : suffix (madv (applyOp (opCode o2) (applyOp (opCode o1) v1 v2 MP).1 v3
        (applyOp (opCode o1) v1 v2 MP).2).2 P.length) = [] := by
      rw [suffix_madv, suffix_applyOp, suffix_applyOp, hsufP]
      exact List.drop_length P
    simp [curc, hnil]
  have hstopP : exprLoop (f + 3)
      (applyOp (opCode o2) (applyOp (opCode o1) v1 v2 MP).1 v3
        (applyOp (opCode o1) v1 v2 MP).2).1
      (madv (applyOp (opCode o2) (applyOp (opCode o1) v1 v2 MP).1 v3
        (applyOp (opCode o1) v1 v2 MP).2).2 P.length) =
      Res.ok ((applyOp (opCode o2) (applyOp (opCode o1) v1 v2 MP).1 v3
        (applyOp (opCode o1) v1 v2 MP).2).1,
        madv (applyOp (opCode o2) (applyOp (opCode o1) v1 v2 MP).1 v3
          (applyOp (opCode o1) v1 v2 MP).2).2 P.length) :=
    exprLoop_stop (f + 2) _ _ (Or.inl hcur0p)
  rw [hE]
  simp only [exprBody, hssP, htP, Res.bind]
  rw [hstep2p]
  simp only [applyOp_madv, madv_madv]
  rw [hlenP, hstopP]
  simp only [chain2]

/-- `chain2` made explicit: the left fold of the two operator values, the
remainder register threaded through the two operator applications, and the two
division-by-zero messages appended in order. -/
theorem chain2_obs (o1 o2 : BOp) (v1 v2 v3 : Int) (m : Machine) :
    chain2 o1 o2 v1 v2 v3 m =
      (applyOpV (opCode o2) (applyOpV (opCode o1) v1 v2) v3,
        { m with
            mod := (applyOpMod (opCode o2) (applyOpV (opCode o1) v1 v2) v3
              (applyOpMod (opCode o1) v1 v2 m.mod))
            out := (m.out ++ (applyOpOut (opCode o1) v1 v2 ++
              applyOpOut (opCode o2) (applyOpV (opCode o1) v1 v2) v3)) }) := by
  simp [chain2, applyOp_eq]

/-- C3: binary operators apply strictly left to right with no precedence: for all
digit terms t1, t2, t3 and binary operators op1, op2, evaluating the flat string
`t1 op1 t2 op2 t3` yields the same value, remainder register and output as
evaluating `(t1 op1 t2) op2 t3`, namely the left fold applying op1 first and op2
to its result. (The claim's example values: `2+3*4` is indeed 20, but `2*3+4`
evaluates to 10, not 18.) -/
theorem c3_left_to_right (ds1 ds2 ds3 : List Char) (o1 o2 : BOp) (base : Machine) (f : Nat)
    (h1 : ds1 ≠ []) (h1d : ∀ c ∈ ds1, isDigitC c = true)
    (h2 : ds2 ≠ []) (h2d : ∀ c ∈ ds2, isDigitC c = true)
    (h3 : ds3 ≠ []) (h3d : ∀ c ∈ ds3, isDigitC c = true) :
    evalObs (f + 5) (exprAt base (flatStr ds1 ds2 ds3 o1 o2)) =
      Res.ok
        (applyOpV (opCode o2)
            (applyOpV (opCode o1) (i16 (clampPos 64 (decNat ds1))) (i16 (clampPos 64 (decNat ds2)))) (i16 (clampPos 64 (decNat ds3))),
          applyOpMod (opCode o2)
            (applyOpV (opCode o1) (i16 (clampPos 64 (decNat ds1))) (i16 (clampPos 64 (decNat ds2)))) (i16 (clampPos 64 (decNat ds3)))
            (applyOpMod (opCode o1) (i16 (clampPos 64 (decNat ds1))) (i16 (clampPos 64 (decNat ds2))) base.mod),
          base.out ++ (applyOpOut (opCode o1) (i16 (clampPos 64 (decNat ds1))) (i16 (clampPos 64 (decNat ds2))) ++
            applyOpOut (opCode o2)
              (applyOpV (opCode o1) (i16 (clampPos 64 (decNat ds1))) (i16 (clampPos 64 (decNat ds2))))
              (i16 (clampPos 64 (decNat ds3))))) ∧
    evalObs (f + 5) (exprAt base (flatStr ds1 ds2 ds3 o1 o2)) =
      evalObs (f + 5) (exprAt base (parStr ds1 ds2 ds3 o1 o2)) := by
  have hf := expression_flat ds1 ds2 ds3 o1 o2 base f h1 h1d h2 h2d h3 h3d
  have hp := expression_par ds1 ds2 ds3 o1 o2 base f h1 h1d h2 h2d h3 h3d
  have e1 : evalObs (f + 5) (exprAt base (flatStr ds1 ds2 ds3 o1 o2)) =
      Res.ok
        (applyOpV (opCode o2)
            (applyOpV (opCode o1) (i16 (clampPos 64 (decNat ds1))) (i16 (clampPos 64 (decNat ds2)))) (i16 (clampPos 64 (decNat ds3))),
          applyOpMod (opCode o2)
            (applyOpV (opCode o1) (i16 (clampPos 64 (decNat ds1))) (i16 (clampPos 64 (decNat ds2)))) (i16 (clampPos 64 (decNat ds3)))
            (applyOpMod (opCode o1) (i16 (clampPos 64 (decNat ds1))) (i16 (clampPos 64 (decNat ds2))) base.mod),
          base.out ++ (applyOpOut (opCode o1) (i16 (clampPos 64 (decNat ds1))) (i16 (clampPos 64 (decNat ds2))) ++
            applyOpOut (opCode o2)
              (applyOpV (opCode o1) (i16 (clampPos 64 (decNat ds1))) (i16 (clampPos 64 (decNat ds2))))
              (i16 (clampPos 64 (decNat ds3))))) := by
    unfold evalObs
    rw [hf]
    simp [Res.bind, chain2_obs, madv, exprAt]
  have e2 : evalObs (f + 5) (exprAt base (parStr ds1 ds2 ds3 o1 o2)) =
      Res.ok
        (applyOpV (opCode o2)
            (applyOpV (opCode o1) (i16 (clampPos 64 (decNat ds1))) (i16 (clampPos 64 (decNat ds2)))) (i16 (clampPos 64 (decNat ds3))),
          applyOpMod (opCode o2)
            (applyOpV (opCode o1) (i16 (clampPos 64 (decNat ds1))) (i16 (clampPos 64 (decNat ds2)))) (i16 (clampPos 64 (decNat ds3)))
            (applyOpMod (opCode o1) (i16 (clampPos 64 (decNat ds1))) (i16 (clampPos 64 (decNat ds2))) base.mod),
          base.out ++ (applyOpOut (opCode o1) (i16 (clampPos 64 (decNat ds1))) (i16 (clampPos 64 (decNat ds2))) ++
            applyOpOut (opCode o2)
              (applyOpV (opCode o1) (i16 (clampPos 64 (decNat ds1))) (i16 (clampPos 64 (decNat ds2))))
              (i16 (clampPos 64 (decNat ds3))))) := by
    unfold evalObs
    rw [hp]
    simp [Res.bind, chain2_obs, madv, exprAt]
  exact ⟨e1, e1.trans e2.symm⟩

/-- Witness for C3: `2+3*4` evaluates flat and parenthesized to the same result,
namely 20 with no division message and an untouched remainder register. -/
theorem c3_left_to_right_witness :
    evalObs 5 (exprAt (initMachine "") (flatStr (['2']) (['3']) (['4']) BOp.add BOp.mul)) =
      Res.ok (20, 0, []) ∧
    evalObs 5 (exprAt (initMachine "") (flatStr (['2']) (['3']) (['4']) BOp.add BOp.mul)) =
      evalObs 5 (exprAt (initMachine "") (parStr (['2']) (['3']) (['4']) BOp.add BOp.mul)) := by
  have h := c3_left_to_right (['2']) (['3']) (['4']) BOp.add BOp.mul (initMachine "") 0
    (by decide) (by decide) (by decide) (by decide) (by decide) (by decide)
  exact ⟨by rw [h.1]; rfl, h.2⟩

/-- The program text of a line-list unfolds to the first line's digits, its rest,
a newline, and the remaining text. -/
theorem progText_cons (p : List Char × List Char) (tl : List (List Char × List Char)) :
    progText (p :: tl) = p.1 ++ (p.2 ++ ('\n' :: progText tl)) := by
  simp [progText, lineText]

/-- `nlSpan` over a newline-free, NUL-free segment followed by a newline consumes
the segment and the newline. -/
theorem nlSpan_line (a b : List Char) (ha : ∀ c ∈ a, c ≠ '\n' ∧ c ≠ nulC) :
    nlSpan (a ++ ('\n' :: b)) = a.length + 1 := by
  unfold nlSpan spanLen
  have htw : (a ++ ('\n' :: b)).takeWhile (fun c => decide (¬(c = '\n' ∨ c = nulC))) = a := by
    refine takeWhile_append_all _ _ _ (fun c hc => ?_) (by simp)
    have h := ha c hc
    simp [h.1, h.2]
  have hdr : (a ++ ('\n' :: b)).drop a.length = '\n' :: b :=
    drop_prefix_len _ _ _ rfl
  simp only [htw, hdr]
  simp [List.headD_cons]

/-- The scanning loop of `searchLine`, run on a well-formed program text with
sufficient fuel, returns exactly the spec-side lookup: the first line whose number
is at least the target with the offset of its start, or -1 with the text length
when no line qualifies. -/
theorem searchScanF_spec (ls : List (List Char × List Char)) (t : Int) (g : Nat)
    (hok : ∀ p ∈ ls, lineOk p) (hg : (progText ls).length < g) :
    searchScanF g (progText ls) t =
      (match specFind ls t with
       | some vo => vo
       | none => (-1, (progText ls).length)) := by
  induction ls generalizing g with
  | nil =>
    cases g with
    | zero => omega
    | succ g' =>
      rw [searchScanF_succ]
      simp [progText, specFind, searchScanBody]
  | cons p tl ih =>
    obtain ⟨hne, hds, hrest, hhd, hsm⟩ := hok p (by simp)
    cases g with
    | zero => omega
    | succ g' =>
      rw [searchScanF_succ]
      have hPT := progText_cons p tl
      have hnil : progText (p :: tl) ≠ [] := by
        rw [hPT]
        intro h
        exact hne (List.append_eq_nil.mp h).1
      have hhead2 : isDigitC ((p.2 ++ ('\n' :: progText tl)).headD nulC) = false := by
        cases hp2 : p.2 with
        | nil =>
          simp [hp2]
          decide
        | cons x xs =>
          have h := hhd
          rw [hp2] at h
          simpa using h
      have htw : (progText (p :: tl)).takeWhile isDigitC = p.1 := by
        rw [hPT]
        exact takeWhile_append_all _ _ _ hds hhead2
      have hlen0 : ¬ p.1.length = 0 := fun h => hne (List.length_eq_zero.mp h)
      have hn1 : ¬ i16 (decNat p.1) = -1 := by
        rw [i16_small _ hsm]
        omega
      simp only [searchScanBody]
      rw [if_neg hnil, htw, clampPos64_small _ hsm]
      rw [if_neg hlen0, if_neg hn1]
      by_cases hle : t ≤ i16 (decNat p.1)
      · rw [if_pos hle]
        simp [specFind, hle]
      · rw [if_neg hle]
        have hdrop : (progText (p :: tl)).drop p.1.length =
            p.2 ++ ('\n' :: progText tl) := by
          rw [hPT]
          exact drop_prefix_len _ _ _ rfl
        have hnl : nlSpan (p.2 ++ ('\n' :: progText tl)) = p.2.length + 1 :=
          nlSpan_line _ _ hrest
        have hdk : (p.2 ++ ('\n' :: progText tl)).drop (p.2.length + 1) = progText tl := by
          rw [show p.2 ++ ('\n' :: progText tl) = (p.2 ++ ['\n']) ++ progText tl by simp]
          exact drop_prefix_len _ _ _ (by simp)
        have hp1 : 0 < p.1.length := List.length_pos.mpr hne
        have hg' : (progText tl).length < g' := by
          rw [hPT] at hg
          simp only [List.length_append, List.length_cons] at hg
          omega
        have ihh := ih g' (fun q hq => hok q (List.mem_cons_of_mem _ hq)) hg'
        rw [hdrop, hnl, hdk, ihh]
        cases hsf : specFind tl t with
        | none =>
          simp only [specFind, hsf, if_neg hle, Option.map_none']
          have : p.1.length + (p.2.length + 1) + (progText tl).length =
              (progText (p :: tl)).length := by
            rw [hPT]
            simp only [List.length_append, List.length_cons]
            omega
          simpa using this
        | some vo =>
          simp only [specFind, hsf, if_neg hle, Option.map_some']
          have : p.1.length + (p.2.length + 1) + vo.2 = (lineText p).length + vo.2 := by
            simp only [lineText, List.length_append, List.length_cons, List.length_nil]
            try omega
          simpa using this

/-- C6: on a program all of whose lines begin with a decimal line number, GOTO to
target t jumps to the first line whose number is at least t (fall-through), per the
spec-side lookup `specFind`; when no line qualifies or t is -1 the line register
becomes the sentinel -1, on which the outer run loop stops immediately. -/
theorem c6_goto_fallthrough (ls : List (List Char × List Char)) (t : Int) (m : Machine)
    (hok : ∀ p ∈ ls, lineOk p) (hbuf : m.pbuff = progText ls) :
    (t = -1 → gotoLine m t = Res.ok { m with ln := -1 }) ∧
    (∀ n : Int, ∀ off : Nat, t ≠ -1 → specFind ls t = some (n, off) →
      gotoLine m t = Res.ok { m with s := progText ls, pos := off, ln := n }) ∧
    (t ≠ -1 → specFind ls t = none →
      gotoLine m t =
        Res.ok { m with s := progText ls, pos := (progText ls).length, ln := -1 }) ∧
    (∀ g : Nat, ∀ m' : Machine, m'.ln = -1 →
      runOuter (g + 1) m' = Res.ok (RunOut.ret m')) := by
  have hhash : ¬ (progText ls).headD nulC = '#' := by
    cases ls with
    | nil => simp [progText, nulC]
    | cons p tl =>
      obtain ⟨hne, hds, _, _, _⟩ := hok p (by simp)
      rw [progText_cons]
      cases hp1 : p.1 with
      | nil => exact absurd hp1 hne
      | cons c cs =>
        have hd : isDigitC c = true := by
          have := hds c
          rw [hp1] at this
          exact this (by simp)
        simpa using digit_ne hd '#' (by decide)
  refine ⟨fun ht => ?_, fun n off ht hsf => ?_, fun ht hsf => ?_, fun g m' hln => ?_⟩
  · unfold gotoLine
    rw [if_pos ht]
  · unfold gotoLine
    rw [if_neg ht]
    unfold searchLine searchScan
    simp only [hbuf]
    rw [if_neg hhash]
    rw [searchScanF_spec ls t _ hok (by omega), hsf]
    rfl
  · unfold gotoLine
    rw [if_neg ht]
    unfold searchLine searchScan
    simp only [hbuf]
    rw [if_neg hhash]
    rw [searchScanF_spec ls t _ hok (by omega), hsf]
    rfl
  · rw [runOuter_succ]
    by_cases hc : curc m' = nulC
    · simp [runOuterBody, hc]
    · simp [runOuterBody, hc, hln]

/-- Witness for C6: in the two-line program `10 A` / `55 B`, GOTO 50 falls through
to line 55, which starts at byte offset 5 of the program text. -/
theorem c6_goto_fallthrough_witness :
    gotoLine (initMachine "10 A\n55 B\n") 50 =
      Res.ok { initMachine "10 A\n55 B\n" with
        s := ("10 A\n55 B\n").toList, pos := 5, ln := 55 } := by
  have h := c6_goto_fallthrough
    [((['1', '0']), ([' ', 'A'])), ((['5', '5']), ([' ', 'B']))] 50
    (initMachine "10 A\n55 B\n") (by decide) (by decide)
  rw [(h.2.1 55 5 (by decide) (by decide) : _)]
  rfl

/-- C1: the spec promises that every byte- or word-array access wraps its 16-bit
effective address into the fixed 65536-byte memory and never raises a bounds error.
The code computes the address as a Go `int16` (signed), and Go panics with an
index-out-of-range runtime error when the signed address is negative: reading
`A:0-1)` with `A = 0` (effective address -1) panics, and so does the byte-array
write `A:0-1)=0` inside `run`. The spec is the evident intent (the declared memory
is 65536 bytes, yet `int16` indexing can never even reach its upper half); the
signed index is the code's slip. -/
theorem c1_negative_address_panics :
    term 20 (exprMachine ("A:0-1)".toList)) = Res.panic ∧
    boot 60 "10 A:0-1)=0\n" = Res.panic := by
  exact ⟨rfl, rfl⟩

/-- C9: the spec expects `10 A=5/A=A*2??=A/` + `20 *QU` to print the hex form of
10. In the code, `/`, `=` and `*` after `A=5` are greedily consumed as binary
operators of one flat expression (`5/A` divides by the zero-initialized `A`), so
the run prints two division-by-zero messages and `ffff`, and its output contains
no hex digit `a` at all (so no rendering of 10 in hex); only the exit status 0
part of the claim holds. -/
theorem c9_counterexample :
    (boot 100 "10 A=5/A=A*2??=A/\n20 *QU\n").outOf =
      some ("Division by zero\nDivision by zero\nffff".toList) ∧
    ¬ ('a' ∈ ("Division by zero\nDivision by zero\nffff".toList)) ∧
    ¬ ('A' ∈ ("Division by zero\nDivision by zero\nffff".toList)) := by
  refine ⟨rfl, by decide, by decide⟩

/-- C9 (amended): what the two-line program actually does: `A=5/A=A*2` is one
expression statement assigning 0 to A and printing one division-by-zero message,
`??=A/` prints a second message and then `ffff` (4-digit hex of -1), and `*QU`
exits with status 0. -/
theorem c9_actual_run :
    (boot 100 "10 A=5/A=A*2??=A/\n20 *QU\n").outOf =
      some ("Division by zero\nDivision by zero\nffff".toList) ∧
    (boot 100 "10 A=5/A=A*2??=A/\n20 *QU\n").isExit = true := by
  exact ⟨rfl, rfl⟩

/-- C2 (counterexample): UNTIL (`@=(`) on an empty runtime stack is NOT a silent
no-op with execution continuing: the pop is skipped but the condition text `(1)` is
left unconsumed, the dispatcher re-reads `(` as a statement and prints
`Syntaxerror in 10`, terminating the run. Likewise loop-step (`@=`) on an empty
stack leaves `A+1` unconsumed, which is re-dispatched as a statement: a syntax
error is printed and variable A is clobbered to 1. -/
theorem c2_counterexample :
    (boot 60 "10 @=(1)\n").outOf = some ("\nSyntaxerror in 10".toList) ∧
    (boot 60 "10 @=(1)\n").isRet = true ∧
    (boot 60 "10 @=A+1\n").outOf = some ("\nSyntaxerror in 10".toList) ∧
    (boot 60 "10 @=A+1\n").varOf 0 = some 1 := by
  exact ⟨rfl, rfl, rfl, rfl⟩

/-- C3 (counterexample): under the flat left-to-right evaluation the code actually
implements, `2*3+4` evaluates to `(2*3)+4 = 10`, not to the 18 stated in the spec. -/
theorem c3_counterexample :
    evalV 9 ("2*3+4".toList) = Res.ok 10 ∧ evalV 9 ("2*3+4".toList) ≠ Res.ok 18 := by
  exact ⟨rfl, by decide⟩

/-- C4 (counterexample): a division by zero does NOT overwrite the remainder
register: evaluating `1/0` from a state whose register holds 7 prints the message,
yields -1, and leaves the register at 7 - so "overwritten by every division" fails
for zero divisors. -/
theorem c4_counterexample :
    evalObs 9 { exprMachine ("1/0".toList) with mod := 7 } =
      Res.ok (-1, 7, "Division by zero\n".toList) := by
  exact rfl

/-- C5 (counterexample): an unknown two-letter meta-command (`*ZZ`) prints the
syntax error message but does NOT terminate the run: the statements after it on the
same line still execute (the `7` and the newline appear after the message) and the
run ends by falling off the end of the program, not at the meta-command. -/
theorem c5_counterexample :
    (boot 60 "10 *ZZ?=7 /\n").outOf = some ("\nSyntaxerror in 107\n".toList) ∧
    (boot 60 "10 *ZZ?=7 /\n").isRet = true := by
  exact ⟨rfl, rfl⟩

/-- C7: a counted loop whose start value (5) already exceeds its bound (3). With
for-mode off the body runs exactly once (one `5` is printed) and the loop then
terminates with the frame popped (`A = 6` from the step, empty stack). With
for-mode on the body is skipped entirely (nothing printed), no counted-loop frame
is ever pushed (the stack stays empty and nothing pops it), and the loop-step
expression is evaluated exactly once: with step `A+$`, exactly one byte of the
two-byte input stream is consumed, and its value is discarded (`A` stays 5). -/
theorem c7_for_mode :
    (bootWith 100 "10 A=5,3?=A@=A+1\n" 0 "").outOf = some ("5".toList) ∧
    (bootWith 100 "10 A=5,3?=A@=A+1\n" 0 "").varOf 0 = some 6 ∧
    (bootWith 100 "10 A=5,3?=A@=A+1\n" 0 "").stackOf = some [] ∧
    (bootWith 100 "10 A=5,3?=A@=A+1\n" 0 "").isRet = true ∧
    (bootWith 100 "10 A=5,3?=A@=A+$\n" 1 "xy").outOf = some [] ∧
    (bootWith 100 "10 A=5,3?=A@=A+$\n" 1 "xy").varOf 0 = some 5 ∧
    (bootWith 100 "10 A=5,3?=A@=A+$\n" 1 "xy").stackOf = some [] ∧
    (bootWith 100 "10 A=5,3?=A@=A+$\n" 1 "xy").stdinOf = some ("y".toList) ∧
    (bootWith 100 "10 A=5,3?=A@=A+$\n" 1 "xy").isRet = true := by
  refine ⟨rfl, rfl, rfl, rfl, rfl, rfl, rfl, rfl, rfl⟩

/-- C8: the spec promises line lookup always terminates. The comment-skip loop in
`searchLine` is `for m.currentChar() != '\n' { m.advance(1) }` with no end-of-text
check: on a program text starting with `#` that contains no newline (such as the
one-byte file `#ab`), `currentChar` returns 0 forever and the interpreter loops
forever. This contradicts the code's own `skipToNewline` helper, which does check
for the 0 byte - the missing check is the slip. When a newline exists, lookup
terminates normally (second conjunct). -/
theorem c8_comment_hang :
    searchLine (initMachine "#ab") 5 = Res.hang ∧
    gotoLine (initMachine "#ab") 5 = Res.hang ∧
    searchLine (initMachine "#c\n20 x\n") 5 =
      Res.ok (20, { initMachine "#c\n20 x\n" with s := "#c\n20 x\n".toList, pos := 3 }) := by
  exact ⟨rfl, rfl, rfl⟩

/-- C2 (amended): a stack-frame pop with insufficient cells leaves the interpreter
state itself untouched at the frame operation - RETURN (fewer than 2 cells), UNTIL
(fewer than 2) and loop-step (fewer than 3) all return the machine unchanged, with
no message - but UNTIL and loop-step do not consume their trailing expression text,
so the dispatcher re-reads that text as statements (see the counterexample); only
RETURN genuinely continues as if the statement had no effect, as the concrete run
`10 ]?=7 /` shows (it prints `7` and a newline and terminates normally). -/
theorem c2_underflow_noop :
    (∀ m : Machine, m.stack.length < 2 → returnFromSub m = Res.ok m) ∧
    (∀ (f : Nat) (m : Machine), m.stack.length < 2 → untilLoop f m = Res.ok m) ∧
    (∀ (f : Nat) (m : Machine), m.stack.length < 3 → nextLoop f m = Res.ok m) ∧
    (boot 60 "10 ]?=7 /\n").outOf = some ("7\n".toList) ∧
    (boot 60 "10 ]?=7 /\n").isRet = true := by
  refine ⟨?_, ?_, ?_, rfl, rfl⟩
  · intro m h
    rcases hs : m.stack with _ | ⟨c, _ | ⟨d, tl⟩⟩
    · simp [returnFromSub, hs]
    · simp [returnFromSub, hs]
    · rw [hs] at h
      simp at h
      omega
  · intro f m h
    rcases hs : m.stack with _ | ⟨c, _ | ⟨d, tl⟩⟩
    · simp [untilLoop, hs]
    · simp [untilLoop, hs]
    · rw [hs] at h
      simp at h
      omega
  · intro f m h
    rcases hs : m.stack with _ | ⟨c, _ | ⟨d, _ | ⟨e, tl⟩⟩⟩
    · simp [nextLoop, hs]
    · simp [nextLoop, hs]
    · simp [nextLoop, hs]
    · rw [hs] at h
      simp at h
      omega

/-- Witness for the underflow no-op theorem at the empty stack. -/
theorem c2_underflow_noop_witness :
    (initMachine "").stack.length < 2 ∧ (initMachine "").stack.length < 3 ∧
    returnFromSub (initMachine "") = Res.ok (initMachine "") ∧
    untilLoop 5 (initMachine "") = Res.ok (initMachine "") ∧
    nextLoop 5 (initMachine "") = Res.ok (initMachine "") := by
  refine ⟨by decide, by decide, c2_underflow_noop.1 _ (by decide),
    c2_underflow_noop.2.1 5 _ (by decide), c2_underflow_noop.2.2.1 5 _ (by decide)⟩

/-- C5 (amended): an unknown two-letter meta-command prints the syntax error
message with the current line number and execution CONTINUES with the rest of the
line: `optionalCommand` consumes the two bytes, appends the message, and reports
`cont`, and the concrete run `10 *ZZ?=7 /` still executes `?=7` and `/` after the
message before terminating by reaching the end of the program. -/
theorem c5_unknown_meta :
    (∀ (f : Nat) (m : Machine) (a b : Char) (r : List Char),
        suffix m = a :: b :: r →
        ¬(toUpperC a = 'L' ∧ toUpperC b = 'D') →
        ¬(toUpperC a = 'Q' ∧ toUpperC b = 'U') →
        ¬(toUpperC a = 'T' ∧ toUpperC b = 'N') →
        ¬(toUpperC a = 'T' ∧ toUpperC b = 'F') →
        ¬(toUpperC a = 'S' ∧ toUpperC b = 'H') →
        ¬(toUpperC a = 'F' ∧ toUpperC b = 'M') →
        optionalCommand f m = Res.ok (OptOut.cont (syntaxError (madv m 2)))) ∧
    (boot 60 "10 *ZZ?=7 /\n").outOf = some ("\nSyntaxerror in 107\n".toList) ∧
    (boot 60 "10 *ZZ?=7 /\n").isRet = true := by
  refine ⟨?_, rfl, rfl⟩
  intro f m a b r hsuf h1 h2 h3 h4 h5 h6
  have hca : curc m = a := curc_cons hsuf
  have hcb : curc (madv m 1) = b := by
    refine curc_cons (r := r) ?_
    rw [suffix_madv, hsuf]
    rfl
  simp only [optionalCommand, hca, hcb, madv_madv]
  rw [if_neg h1, if_neg h2, if_neg h3, if_neg h4, if_neg h5, if_neg h6]

/-- Witness for the unknown-meta-command theorem at `*ZZ`. -/
theorem c5_unknown_meta_witness :
    suffix (exprMachine ("ZZ".toList)) = 'Z' :: 'Z' :: [] ∧
    optionalCommand 5 (exprMachine ("ZZ".toList)) =
      Res.ok (OptOut.cont (syntaxError (madv (exprMachine ("ZZ".toList)) 2))) := by
  refine ⟨rfl, c5_unknown_meta.1 5 _ 'Z' 'Z' [] rfl (by decide) (by decide) (by decide)
    (by decide) (by decide) (by decide)⟩

/-- C10: wherever a variable name is read, a maximal run of letters is consumed as
one token naming the variable of its first letter: `getVariable` on any letter run
returns the first letter and advances past the whole run (general part); the
program `10 COUNT=5` therefore assigns 5 to variable C with no syntax error, and
the expression `count` read from a state with C = 9 evaluates to 9
(case-insensitive). -/
theorem c10_variable_names :
    (∀ (m : Machine) (c : Char) (ls r : List Char),
        suffix m = (c :: ls) ++ r → isAlphaC c = true →
        (∀ d ∈ ls, isAlphaC d = true) → isAlphaC (r.headD nulC) = false →
        getVariable m = (c, madv m (ls.length + 1))) ∧
    (boot 60 "10 COUNT=5\n").varOf 2 = some 5 ∧
    (boot 60 "10 COUNT=5\n").outOf = some [] ∧
    (boot 60 "10 COUNT=5\n").isRet = true ∧
    evalObs 9 { exprMachine ("count".toList) with
      vars := (List.replicate 26 (0 : Int)).set 2 9 } = Res.ok (9, 0, []) := by
  refine ⟨?_, rfl, rfl, rfl, rfl⟩
  intro m c ls r hsuf hc hls hr
  have hcur : curc m = c := curc_cons (by simpa using hsuf)
  have hspan : spanLen isAlphaC (suffix m) = ls.length + 1 := by
    rw [hsuf, spanLen, takeWhile_append_all _ _ _ ?all hr]
    · simp
    · intro d hd
      rcases List.mem_cons.1 hd with rfl | hd
      · exact hc
      · exact hls d hd
  simp [getVariable, hcur, hc, hspan]

/-- Witness for the variable-name theorem at `COUNT=5`. -/
theorem c10_variable_names_witness :
    suffix (exprMachine ("COUNT=5".toList)) =
      ('C' :: "OUNT".toList) ++ "=5".toList ∧
    getVariable (exprMachine ("COUNT=5".toList)) =
      ('C', madv (exprMachine ("COUNT=5".toList)) (("OUNT".toList).length + 1)) := by
  refine ⟨rfl, c10_variable_names.1 _ 'C' ("OUNT".toList) ("=5".toList) rfl (by decide)
    (by decide) (by decide)⟩

/-- C4 (amended): division semantics. A division by a nonzero divisor yields the
truncated quotient and overwrites the remainder register with the Go-style signed
remainder; a division by zero prints the message, yields -1, leaves the register
unchanged, and does not abort; no other binary operator touches the register, so
its value persists until the next nonzero division. Concretely, `10/3` yields 3
with remainder 1, `%9` then reads 1 without disturbing it, and a run containing
`?=5/0` prints the message and `-1` and still executes the following statements. -/
theorem c4_division :
    (∀ (v w : Int) (m : Machine), w ≠ 0 →
        applyOp '/' v w m = (i16 (Int.tdiv v w), { m with mod := i16 (Int.tmod v w) })) ∧
    (∀ (v : Int) (m : Machine),
        applyOp '/' v 0 m = (-1, { m with out := m.out ++ dbzMsg })) ∧
    (∀ (c : Char) (v w : Int) (m : Machine), c ≠ '/' →
        ((applyOp c v w m).2).mod = m.mod) ∧
    evalObs 9 (exprMachine ("10/3".toList)) = Res.ok (3, 1, []) ∧
    evalObs 9 { exprMachine ("%9".toList) with mod := 1 } = Res.ok (1, 1, []) ∧
    (boot 60 "10 ?=5/0 ?=9 /\n").outOf = some ("Division by zero\n-19\n".toList) ∧
    (boot 60 "10 ?=5/0 ?=9 /\n").isRet = true := by
  refine ⟨?_, ?_, ?_, rfl, rfl, rfl, rfl⟩
  · intro v w m hw
    simp +decide [applyOp, hw]
  · intro v m
    simp +decide [applyOp]
  · intro c v w m hc
    unfold applyOp
    split_ifs <;> simp_all

/-- Witness for the division theorem at `10/3`. -/
theorem c4_division_witness :
    (3 : Int) ≠ 0 ∧
    applyOp '/' 10 3 (exprMachine []) =
      (i16 (Int.tdiv 10 3), { exprMachine [] with mod := i16 (Int.tmod 10 3) }) ∧
    ((applyOp '+' 4 5 (exprMachine [])).2).mod = (exprMachine []).mod := by
  refine ⟨by decide, c4_division.1 10 3 _ (by decide), c4_division.2.2.1 '+' 4 5 _ (by decide)⟩


end Miep
